import Mathlib

/-
Verification of the gx compiler (gx.go): a single-pass lowering of a
restricted Go subset to C++ text.

This file shallowly embeds the parts of gx.go that the verified claims are
about:
  * the semantic-type model (`GoType`, mirroring the go/types.Type shapes the
    code inspects) and the compiler state (`Compiler`, mirroring the Go
    `Compiler` struct fields used by these claims);
  * `genTypeExpr` / `genFuncDecl` with their memoization caches;
  * the parameter-size model (`sizeOf`, mirroring types.SizesFor("gc","wasm"),
    i.e. word size 8, max alignment 8);
  * the expression/statement writers (`writeExpr`, `writeCallExpr`,
    `writeCompositeLit`, `writeAssignStmt`, ...);
  * the reachable-type-spec collector of `compile` (post-order DFS) and the
    artifact gate of `main`.

Conventions of the embedding:
  * Go maps keyed by pointer identity (types.Type, *types.Var, *ast.FuncDecl)
    become association lists keyed by the corresponding embedded value; field
    variables (`*types.Var` of struct fields) are identified by a numeric id.
  * `token.Pos` is abstracted as a number; `fileSet.PositionFor` becomes
    `posString`.
  * The `errors` strings.Builder is represented as the list of appended
    diagnostics; `errored()` tests the rendered text exactly as
    `c.errors.Len() != 0` does.
  * The go/ast expression nodes carry the results of the type-checker lookups
    the code performs on them (`c.types.TypeOf`, `.Addressable()`,
    `.IsBuiltin()`, `c.types.Uses`, `c.types.Instances`), since gx.go only
    ever reads those tables.
  * Closures (ast.FuncLit) are outside the modeled expression fragment; no
    claim concerns them.
-/

inductive BasicKind where
  | bool | int | float32 | float64 | string | uint8
deriving DecidableEq, Repr

mutual
inductive GoType where
  | basic (k : BasicKind)
  | pointer (elem : GoType)
  | named (name : String) (typeParams : List String) (typeArgs : GoTypes) (underlying : GoType)
  | typeParam (name : String)
  | signature (recv : Option GoType)
  | array (len : Int) (elem : GoType)
  | slice (elem : GoType)
  | struct_ (fields : GoFields)
  | interface_

inductive GoTypes where
  | nil
  | cons (t : GoType) (ts : GoTypes)

inductive GoFields where
  | nil
  | cons (id : Nat) (fname : String) (ty : GoType) (rest : GoFields)
end

mutual

def GoType.beq : GoType → GoType → Bool
  | .basic k1, .basic k2 => k1 == k2
  | .pointer e1, .pointer e2 => GoType.beq e1 e2
  | .named n1 tp1 a1 u1, .named n2 tp2 a2 u2 =>
      n1 == n2 && tp1 == tp2 && GoTypes.beq a1 a2 && GoType.beq u1 u2
  | .typeParam n1, .typeParam n2 => n1 == n2
  | .signature r1, .signature r2 => GoType.beqOptRecv r1 r2
  | .array l1 e1, .array l2 e2 => l1 == l2 && GoType.beq e1 e2
  | .slice e1, .slice e2 => GoType.beq e1 e2
  | .struct_ f1, .struct_ f2 => GoFields.beq f1 f2
  | .interface_, .interface_ => true
  | _, _ => false
termination_by structural t => t

def GoType.beqOptRecv : Option GoType → Option GoType → Bool
  | none, none => true
  | some r1, some r2 => GoType.beq r1 r2
  | _, _ => false
termination_by structural r _ => r

def GoTypes.beq : GoTypes → GoTypes → Bool
  | .nil, .nil => true
  | .cons t ts, .cons u us => GoType.beq t u && GoTypes.beq ts us
  | _, _ => false
termination_by structural t => t

def GoFields.beq : GoFields → GoFields → Bool
  | .nil, .nil => true
  | .cons i n t fs, .cons j m u gs => i == j && n == m && GoType.beq t u && GoFields.beq fs gs
  | _, _ => false
termination_by structural t => t

end

mutual

theorem GoType.goTypeEqOfBeq : ∀ {t u : GoType}, GoType.beq t u = true → t = u
  | .basic _, .basic _ => fun h => by
      simp only [GoType.beq, beq_iff_eq] at h; rw [h]
  | .pointer e1, .pointer e2 => fun h => by
      rw [@GoType.goTypeEqOfBeq e1 e2 h]
  | .named n1 tp1 a1 u1, .named n2 tp2 a2 u2 => fun h => by
      simp only [GoType.beq, Bool.and_eq_true, beq_iff_eq] at h
      obtain ⟨⟨⟨h1, h2⟩, h3⟩, h4⟩ := h
      rw [h1, h2, GoTypes.goTypesEqOfBeq h3, GoType.goTypeEqOfBeq h4]
  | .typeParam n1, .typeParam n2 => fun h => by
      simp only [GoType.beq, beq_iff_eq] at h; rw [h]
  | .signature none, .signature none => fun _ => rfl
  | .signature (some r1), .signature (some r2) => fun h => by
      rw [@GoType.goTypeEqOfBeq r1 r2 h]
  | .signature none, .signature (some _) => fun h => Bool.noConfusion h
  | .signature (some _), .signature none => fun h => Bool.noConfusion h
  -- (beqOptRecv unfolds on constructor shapes)
  | .array l1 e1, .array l2 e2 => fun h => by
      simp only [GoType.beq, Bool.and_eq_true, beq_iff_eq] at h
      obtain ⟨h1, h2⟩ := h
      rw [h1, GoType.goTypeEqOfBeq h2]
  | .slice e1, .slice e2 => fun h => by
      rw [@GoType.goTypeEqOfBeq e1 e2 h]
  | .struct_ f1, .struct_ f2 => fun h => by
      rw [@GoFields.goFieldsEqOfBeq f1 f2 h]
  | .interface_, .interface_ => fun _ => rfl
  | .basic _, .pointer _ => fun h => Bool.noConfusion h
  | .basic _, .named _ _ _ _ => fun h => Bool.noConfusion h
  | .basic _, .typeParam _ => fun h => Bool.noConfusion h
  | .basic _, .signature _ => fun h => Bool.noConfusion h
  | .basic _, .array _ _ => fun h => Bool.noConfusion h
  | .basic _, .slice _ => fun h => Bool.noConfusion h
  | .basic _, .struct_ _ => fun h => Bool.noConfusion h
  | .basic _, .interface_ => fun h => Bool.noConfusion h
  | .pointer _, .basic _ => fun h => Bool.noConfusion h
  | .pointer _, .named _ _ _ _ => fun h => Bool.noConfusion h
  | .pointer _, .typeParam _ => fun h => Bool.noConfusion h
  | .pointer _, .signature _ => fun h => Bool.noConfusion h
  | .pointer _, .array _ _ => fun h => Bool.noConfusion h
  | .pointer _, .slice _ => fun h => Bool.noConfusion h
  | .pointer _, .struct_ _ => fun h => Bool.noConfusion h
  | .pointer _, .interface_ => fun h => Bool.noConfusion h
  | .named _ _ _ _, .basic _ => fun h => Bool.noConfusion h
  | .named _ _ _ _, .pointer _ => fun h => Bool.noConfusion h
  | .named _ _ _ _, .typeParam _ => fun h => Bool.noConfusion h
  | .named _ _ _ _, .signature _ => fun h => Bool.noConfusion h
  | .named _ _ _ _, .array _ _ => fun h => Bool.noConfusion h
  | .named _ _ _ _, .slice _ => fun h => Bool.noConfusion h
  | .named _ _ _ _, .struct_ _ => fun h => Bool.noConfusion h
  | .named _ _ _ _, .interface_ => fun h => Bool.noConfusion h
  | .typeParam _, .basic _ => fun h => Bool.noConfusion h
  | .typeParam _, .pointer _ => fun h => Bool.noConfusion h
  | .typeParam _, .named _ _ _ _ => fun h => Bool.noConfusion h
  | .typeParam _, .signature _ => fun h => Bool.noConfusion h
  | .typeParam _, .array _ _ => fun h => Bool.noConfusion h
  | .typeParam _, .slice _ => fun h => Bool.noConfusion h
  | .typeParam _, .struct_ _ => fun h => Bool.noConfusion h
  | .typeParam _, .interface_ => fun h => Bool.noConfusion h
  | .signature _, .basic _ => fun h => Bool.noConfusion h
  | .signature _, .pointer _ => fun h => Bool.noConfusion h
  | .signature _, .named _ _ _ _ => fun h => Bool.noConfusion h
  | .signature _, .typeParam _ => fun h => Bool.noConfusion h
  | .signature _, .array _ _ => fun h => Bool.noConfusion h
  | .signature _, .slice _ => fun h => Bool.noConfusion h
  | .signature _, .struct_ _ => fun h => Bool.noConfusion h
  | .signature _, .interface_ => fun h => Bool.noConfusion h
  | .array _ _, .basic _ => fun h => Bool.noConfusion h
  | .array _ _, .pointer _ => fun h => Bool.noConfusion h
  | .array _ _, .named _ _ _ _ => fun h => Bool.noConfusion h
  | .array _ _, .typeParam _ => fun h => Bool.noConfusion h
  | .array _ _, .signature _ => fun h => Bool.noConfusion h
  | .array _ _, .slice _ => fun h => Bool.noConfusion h
  | .array _ _, .struct_ _ => fun h => Bool.noConfusion h
  | .array _ _, .interface_ => fun h => Bool.noConfusion h
  | .slice _, .basic _ => fun h => Bool.noConfusion h
  | .slice _, .pointer _ => fun h => Bool.noConfusion h
  | .slice _, .named _ _ _ _ => fun h => Bool.noConfusion h
  | .slice _, .typeParam _ => fun h => Bool.noConfusion h
  | .slice _, .signature _ => fun h => Bool.noConfusion h
  | .slice _, .array _ _ => fun h => Bool.noConfusion h
  | .slice _, .struct_ _ => fun h => Bool.noConfusion h
  | .slice _, .interface_ => fun h => Bool.noConfusion h
  | .struct_ _, .basic _ => fun h => Bool.noConfusion h
  | .struct_ _, .pointer _ => fun h => Bool.noConfusion h
  | .struct_ _, .named _ _ _ _ => fun h => Bool.noConfusion h
  | .struct_ _, .typeParam _ => fun h => Bool.noConfusion h
  | .struct_ _, .signature _ => fun h => Bool.noConfusion h
  | .struct_ _, .array _ _ => fun h => Bool.noConfusion h
  | .struct_ _, .slice _ => fun h => Bool.noConfusion h
  | .struct_ _, .interface_ => fun h => Bool.noConfusion h
  | .interface_, .basic _ => fun h => Bool.noConfusion h
  | .interface_, .pointer _ => fun h => Bool.noConfusion h
  | .interface_, .named _ _ _ _ => fun h => Bool.noConfusion h
  | .interface_, .typeParam _ => fun h => Bool.noConfusion h
  | .interface_, .signature _ => fun h => Bool.noConfusion h
  | .interface_, .array _ _ => fun h => Bool.noConfusion h
  | .interface_, .slice _ => fun h => Bool.noConfusion h
  | .interface_, .struct_ _ => fun h => Bool.noConfusion h

theorem GoTypes.goTypesEqOfBeq : ∀ {ts us : GoTypes}, GoTypes.beq ts us = true → ts = us
  | .nil, .nil => fun _ => rfl
  | .cons t ts, .cons u us => fun h => by
      simp only [GoTypes.beq, Bool.and_eq_true] at h
      rw [GoType.goTypeEqOfBeq h.1, GoTypes.goTypesEqOfBeq h.2]
  | .nil, .cons _ _ => fun h => Bool.noConfusion h
  | .cons _ _, .nil => fun h => Bool.noConfusion h

theorem GoFields.goFieldsEqOfBeq : ∀ {fs gs : GoFields}, GoFields.beq fs gs = true → fs = gs
  | .nil, .nil => fun _ => rfl
  | .cons i n t fs, .cons j m u gs => fun h => by
      simp only [GoFields.beq, Bool.and_eq_true, beq_iff_eq] at h
      obtain ⟨⟨⟨h1, h2⟩, h3⟩, h4⟩ := h
      rw [h1, h2, GoType.goTypeEqOfBeq h3, GoFields.goFieldsEqOfBeq h4]
  | .nil, .cons _ _ _ _ => fun h => Bool.noConfusion h
  | .cons _ _ _ _, .nil => fun h => Bool.noConfusion h

end

mutual

theorem GoType.goTypeBeqRefl : ∀ t : GoType, GoType.beq t t = true
  | .basic _ => by simp [GoType.beq]
  | .pointer e => GoType.goTypeBeqRefl e
  | .named n tp a u => by
      simp [GoType.beq, GoTypes.goTypesBeqRefl a, GoType.goTypeBeqRefl u]
  | .typeParam _ => by simp [GoType.beq]
  | .signature none => rfl
  | .signature (some r) => GoType.goTypeBeqRefl r
  | .array l e => by
      simp [GoType.beq, GoType.goTypeBeqRefl e]
  | .slice e => GoType.goTypeBeqRefl e
  | .struct_ f => GoFields.goFieldsBeqRefl f
  | .interface_ => rfl

theorem GoTypes.goTypesBeqRefl : ∀ ts : GoTypes, GoTypes.beq ts ts = true
  | .nil => rfl
  | .cons t ts => by
      simp [GoTypes.beq, GoType.goTypeBeqRefl t, GoTypes.goTypesBeqRefl ts]

theorem GoFields.goFieldsBeqRefl : ∀ fs : GoFields, GoFields.beq fs fs = true
  | .nil => rfl
  | .cons i n t fs => by
      simp [GoFields.beq, GoType.goTypeBeqRefl t, GoFields.goFieldsBeqRefl fs]

end

instance : DecidableEq GoType := fun t u =>
  if h : GoType.beq t u = true then .isTrue (GoType.goTypeEqOfBeq h)
  else .isFalse (fun he => h (he ▸ GoType.goTypeBeqRefl u))

instance : DecidableEq GoTypes := fun t u =>
  if h : GoTypes.beq t u = true then .isTrue (GoTypes.goTypesEqOfBeq h)
  else .isFalse (fun he => h (he ▸ GoTypes.goTypesBeqRefl u))

instance : DecidableEq GoFields := fun t u =>
  if h : GoFields.beq t u = true then .isTrue (GoFields.goFieldsEqOfBeq h)
  else .isFalse (fun he => h (he ▸ GoFields.goFieldsBeqRefl u))

/-
Positions and diagnostics.  gx.go's `errorf` renders
`fileSet.PositionFor(pos, true)` followed by ": ", the message, and a final
newline into the `errors` strings.Builder.  We keep the diagnostics as a list
of (position, message) records, in append order, and render them with
`renderErrors`; `posString` stands for the position's file:line:column text.
-/

abbrev Pos := Nat

def posString (p : Pos) : String := toString p

structure Diag where
  pos : Pos
  msg : String
deriving DecidableEq

def fmtDiag (d : Diag) : String := posString d.pos ++ ": " ++ d.msg ++ "\n"

def renderErrors : List Diag → String
  | [] => ""
  | d :: rest => fmtDiag d ++ renderErrors rest

/- Association-list lookup, modelling Go map indexing (last write wins,
   because insertions are conses at the front). -/
def lookupA {α β : Type} [DecidableEq α] : List (α × β) → α → Option β
  | [], _ => none
  | (k, v) :: rest, a => if k = a then some v else lookupA rest a

/-
Function declarations as `genFuncDecl` consumes them: the identifier name,
the defining package's name (`obj.Pkg().Name()`), the receiver (`sig.Recv()`),
the type-parameter names (`sig.TypeParams()`, nil ↔ []), parameters, results
(`sig.Results()`), and the source position of the results node
(`decl.Type.Results.Pos()`).
-/

structure Param where
  name : String
  ty : GoType
  pos : Pos
deriving DecidableEq

structure FuncDecl where
  name : String
  pkgName : String
  recv : Option Param
  typeParams : List String
  params : List Param
  results : List Param
  resultsPos : Pos
deriving DecidableEq

/-
The compiler state: the fields of gx.go's `Compiler` struct that the verified
code paths read or write (fieldIndices, genTypeExprs, genFuncDecls, indent,
errors, output, atBlockEnd).
-/

structure Compiler where
  fieldIndices : List (Nat × Nat) := []
  genTypeExprs : List (GoType × String) := []
  genFuncDecls : List (FuncDecl × String) := []
  indent : Nat := 0
  errors : List Diag := []
  output : String := ""
  atBlockEnd : Bool := false

/- `errorf` appends one formatted diagnostic to the errors builder. -/
def errorf (pos : Pos) (msg : String) (c : Compiler) : Compiler :=
  { c with errors := c.errors ++ [⟨pos, msg⟩] }

/- `errored` is `c.errors.Len() != 0` on the rendered text. -/
def errored (c : Compiler) : Bool := (renderErrors c.errors).length != 0

/- True iff the output's final byte is a newline (the `peek` test in
   `Compiler.write`). -/
def endsNl (s : String) : Bool := s.data.getLast? == some '\n'

def indentStr (n : Nat) : String := String.mk (List.replicate (2 * n) ' ')

/- `Compiler.write`: clears atBlockEnd, indents after a newline, appends. -/
def write (s : String) (c : Compiler) : Compiler :=
  { c with atBlockEnd := false,
           output := (if endsNl c.output then c.output ++ indentStr c.indent
                      else c.output) ++ s }

def trimFinalSpace (s : String) : String :=
  if s.data.getLast? == some ' ' then String.mk s.data.dropLast else s

/-
The tail of `main` (gx.go lines 829-834): after `compile`, if any diagnostic
was recorded the rendered diagnostic list is printed and no artifact is
written; otherwise the output artifact is written.
-/
def mainOutcome (c : Compiler) : Except String String :=
  if errored c then .error (renderErrors c.errors) else .ok c.output

theorem renderErrors_ne_empty (ds : List Diag) (h : ds ≠ []) :
    (renderErrors ds).length ≠ 0 := by
  match ds with
  | d :: rest =>
    have h1 : (fmtDiag d).length =
        (posString d.pos).length + ": ".length + d.msg.length + "\n".length := by
      simp [fmtDiag, String.length_append]
    have h2 : ": ".length = 2 := rfl
    have h3 : "\n".length = 1 := rfl
    simp only [renderErrors, String.length_append]
    omega

theorem errored_iff (c : Compiler) : errored c = true ↔ c.errors ≠ [] := by
  constructor
  · intro h hne
    simp [errored, hne, renderErrors] at h
  · intro h
    have := renderErrors_ne_empty c.errors h
    simp only [errored, bne_iff_ne, ne_eq]
    omega

/-
An abbreviated model of types.Type.String(), used by gx.go only inside
diagnostic message text ("%s not supported", "%s is large (...)", ...).
-/

def basicName : BasicKind → String
  | .bool => "bool"
  | .int => "int"
  | .float32 => "float32"
  | .float64 => "float64"
  | .string => "string"
  | .uint8 => "uint8"

mutual

def goString : GoType → String
  | .basic k => basicName k
  | .pointer e => "*" ++ goString e
  | .named n _ .nil _ => n
  | .named n _ args _ => n ++ "[" ++ goStrings args ++ "]"
  | .typeParam n => n
  | .signature _ => "func"
  | .array l e => "[" ++ toString l ++ "]" ++ goString e
  | .slice e => "[]" ++ goString e
  | .struct_ _ => "struct"
  | .interface_ => "interface"
termination_by structural t => t

def goStrings : GoTypes → String
  | .nil => ""
  | .cons t .nil => goString t
  | .cons t rest => goString t ++ ", " ++ goStrings rest
termination_by structural ts => ts

end

/- The basic kinds gx.go's `genTypeExpr` supports (gx.go lines 92-103). -/
def isSupportedBasic : BasicKind → Bool
  | .bool => true
  | .int => true
  | .float32 => true
  | .float64 => true
  | _ => false

/-
`genTypeExpr` (gx.go lines 85-145): memoized by type identity; the switch
renders the spelling; the result is stored in the cache before returning.
`genTypeArgs` is the `typeArgs` loop of the `*types.Named` case (lines
110-119); each argument is rendered, trimmed of its final space, and joined
with ", ".
-/

mutual

def genTypeExpr (t : GoType) (pos : Pos) (c : Compiler) : String × Compiler :=
  match lookupA c.genTypeExprs t with
  | some result => (result, c)
  | none =>
      let p : String × Compiler :=
        match t with
        | .basic k =>
            match k with
            | .bool => ("bool" ++ " ", c)
            | .int => ("int" ++ " ", c)
            | .float32 => ("float" ++ " ", c)
            | .float64 => ("double" ++ " ", c)
            | k => (" ", errorf pos (goString (.basic k) ++ " not supported") c)
        | .pointer elem =>
            let r := genTypeExpr elem pos c
            (r.1 ++ "*", r.2)
        | .named n _tps .nil _u => (n ++ " ", c)
        | .named n _tps args _u =>
            let r := genTypeArgs true args pos c
            (n ++ "<" ++ r.1 ++ ">" ++ " ", r.2)
        | .typeParam n => (n ++ " ", c)
        | .signature _ => ("auto &&", c)
        | .array len elem =>
            let r := genTypeExpr elem pos c
            ("gx::Array<" ++ trimFinalSpace r.1 ++ ", " ++ toString len ++ ">" ++ " ", r.2)
        | .slice elem =>
            let r := genTypeExpr elem pos c
            ("gx::Slice<" ++ trimFinalSpace r.1 ++ ">" ++ " ", r.2)
        | t => ("", errorf pos (goString t ++ " not supported") c)
      (p.1, { p.2 with genTypeExprs := (t, p.1) :: p.2.genTypeExprs })
termination_by structural t

def genTypeArgs (first : Bool) (ts : GoTypes) (pos : Pos) (c : Compiler) : String × Compiler :=
  match ts with
  | .nil => ("", c)
  | .cons t rest =>
      let r := genTypeExpr t pos c
      let r2 := genTypeArgs false rest pos r.2
      ((if first then "" else ", ") ++ trimFinalSpace r.1 ++ r2.1, r2.2)
termination_by structural ts

end

/- After any call, the cache holds the returned spelling under the type's
   identity (gx.go line 142). -/
theorem genTypeExpr_memo_lookup (t : GoType) (pos : Pos) (c : Compiler) :
    lookupA ((genTypeExpr t pos c).2).genTypeExprs t = some ((genTypeExpr t pos c).1) := by
  cases t <;> (try cases ‹BasicKind›) <;> (try cases ‹GoTypes›) <;>
    simp only [genTypeExpr] <;> split <;> simp_all [lookupA]

theorem genTypeExpr_hit (t : GoType) (pos : Pos) (c : Compiler) (r : String)
    (h : lookupA c.genTypeExprs t = some r) :
    genTypeExpr t pos c = (r, c) := by
  cases t <;> (try cases ‹BasicKind›) <;> (try cases ‹GoTypes›) <;>
    simp only [genTypeExpr] <;> simp [h]

/-- Claim C6: for any semantic type identity, a second request for its
spelling within one run returns the same pair (byte-identical text, unchanged
state): the non-cached rendering path runs at most once per type identity,
because the first call stores the spelling in `genTypeExprs` under the type
identity and the second call is answered from that cache. -/
theorem claim_C6 (t : GoType) (p1 p2 : Pos) (c : Compiler) :
    genTypeExpr t p2 ((genTypeExpr t p1 c).2) = genTypeExpr t p1 c := by
  rw [genTypeExpr_hit t p2 ((genTypeExpr t p1 c).2) ((genTypeExpr t p1 c).1)
      (genTypeExpr_memo_lookup t p1 c)]

/-- Claim C5: the type-spelling function maps bool to "bool" and int to "int"
unchanged, float32 to "float", float64 to "double" (each spelling carries a
trailing separator space in the emitted fragment, which interior positions
trim via `trimFinalSpace`); pointer-to-T spells as T's spelling followed by a
trailing "*"; a fixed-size array of E and length N spells as the
two-argument instantiation gx::Array<E, N>; a slice of E as the one-argument
instantiation gx::Slice<E>; any other primitive kind, and the unrecognized
shapes (struct and interface types reaching the default arm), record a
"not supported" diagnostic. -/
theorem claim_C5 (c : Compiler) (p : Pos) (hc : c.genTypeExprs = []) :
    (trimFinalSpace (genTypeExpr (.basic .bool) p c).1 = "bool"
      ∧ (genTypeExpr (.basic .bool) p c).2.errors = c.errors)
  ∧ (trimFinalSpace (genTypeExpr (.basic .int) p c).1 = "int"
      ∧ (genTypeExpr (.basic .int) p c).2.errors = c.errors)
  ∧ (trimFinalSpace (genTypeExpr (.basic .float32) p c).1 = "float"
      ∧ (genTypeExpr (.basic .float32) p c).2.errors = c.errors)
  ∧ (trimFinalSpace (genTypeExpr (.basic .float64) p c).1 = "double"
      ∧ (genTypeExpr (.basic .float64) p c).2.errors = c.errors)
  ∧ (∀ t : GoType, (genTypeExpr (.pointer t) p c).1 = (genTypeExpr t p c).1 ++ "*")
  ∧ (∀ (l : Int) (e : GoType), (genTypeExpr (.array l e) p c).1
      = "gx::Array<" ++ trimFinalSpace (genTypeExpr e p c).1 ++ ", " ++ toString l ++ ">" ++ " ")
  ∧ (∀ e : GoType, (genTypeExpr (.slice e) p c).1
      = "gx::Slice<" ++ trimFinalSpace (genTypeExpr e p c).1 ++ ">" ++ " ")
  ∧ (∀ k : BasicKind, isSupportedBasic k = false →
      (genTypeExpr (.basic k) p c).2.errors
        = c.errors ++ [⟨p, goString (.basic k) ++ " not supported"⟩])
  ∧ (∀ fs : GoFields, (genTypeExpr (.struct_ fs) p c).2.errors
        = c.errors ++ [⟨p, goString (.struct_ fs) ++ " not supported"⟩])
  ∧ ((genTypeExpr .interface_ p c).2.errors
        = c.errors ++ [⟨p, goString .interface_ ++ " not supported"⟩]) := by
  refine ⟨⟨?_, ?_⟩, ⟨?_, ?_⟩, ⟨?_, ?_⟩, ⟨?_, ?_⟩, ?_, ?_, ?_, ?_, ?_, ?_⟩
  · simp [genTypeExpr, hc, lookupA, trimFinalSpace]
  · simp [genTypeExpr, hc, lookupA]
  · simp [genTypeExpr, hc, lookupA, trimFinalSpace]
  · simp [genTypeExpr, hc, lookupA]
  · simp [genTypeExpr, hc, lookupA, trimFinalSpace]
  · simp [genTypeExpr, hc, lookupA]
  · simp [genTypeExpr, hc, lookupA, trimFinalSpace]
  · simp [genTypeExpr, hc, lookupA]
  · intro t
    simp [genTypeExpr, hc, lookupA]
  · intro l e
    simp [genTypeExpr, hc, lookupA]
  · intro e
    simp [genTypeExpr, hc, lookupA]
  · intro k hk
    cases k <;> simp_all [genTypeExpr, lookupA, errorf, isSupportedBasic]
  · intro fs
    simp [genTypeExpr, hc, lookupA, errorf]
  · simp [genTypeExpr, hc, lookupA, errorf]

theorem claim_C5_witness :
    trimFinalSpace (genTypeExpr (.basic .bool) 0 {}).1 = "bool"
  ∧ (genTypeExpr (.basic .string) 0 {}).2.errors
      = ({} : Compiler).errors ++ [⟨0, goString (.basic .string) ++ " not supported"⟩] :=
  ⟨(claim_C5 {} 0 rfl).1.1,
   (claim_C5 {} 0 rfl).2.2.2.2.2.2.2.1 .string rfl⟩

/-- Claim C10: when an unsupported semantic type (here: an unsupported basic
kind) is spelled for the first time, exactly one "not supported" diagnostic is
recorded at that first position and the partial text " " is cached; any later
request for the same type's spelling, at any other position, returns the
memoized partial text with the state (and hence the diagnostic list)
unchanged. -/
theorem claim_C10 (k : BasicKind) (hk : isSupportedBasic k = false)
    (p1 p2 : Pos) (c : Compiler)
    (hfresh : lookupA c.genTypeExprs (.basic k) = none) :
    ((genTypeExpr (.basic k) p1 c).2.errors
       = c.errors ++ [⟨p1, goString (.basic k) ++ " not supported"⟩])
  ∧ ((genTypeExpr (.basic k) p1 c).1 = " ")
  ∧ (genTypeExpr (.basic k) p2 ((genTypeExpr (.basic k) p1 c).2)
       = ((genTypeExpr (.basic k) p1 c).1, (genTypeExpr (.basic k) p1 c).2)) := by
  refine ⟨?_, ?_, ?_⟩
  · cases k <;> simp_all [genTypeExpr, errorf, isSupportedBasic]
  · cases k <;> simp_all [genTypeExpr, isSupportedBasic]
  · exact genTypeExpr_hit _ p2 _ _ (genTypeExpr_memo_lookup (.basic k) p1 c)

theorem claim_C10_witness :
    ((genTypeExpr (.basic .string) 5 {}).2.errors
       = ({} : Compiler).errors ++ [⟨5, goString (.basic .string) ++ " not supported"⟩])
  ∧ ((genTypeExpr (.basic .string) 5 {}).1 = " ")
  ∧ (genTypeExpr (.basic .string) 9 ((genTypeExpr (.basic .string) 5 {}).2)
       = ((genTypeExpr (.basic .string) 5 {}).1, (genTypeExpr (.basic .string) 5 {}).2)) :=
  claim_C10 .string rfl 5 9 {} rfl

/-- Claim C2: at the end of a run, if the accumulated diagnostic collection is
non-empty no output artifact is produced: the run instead reports the rendered
diagnostic list, in which every recorded diagnostic appears formatted as
"<location>: <message>" followed by a newline (see `fmtDiag`/`renderErrors`).
The artifact is written exactly when the diagnostic collection is empty
(emission is all-or-nothing, gx.go lines 829-834). -/
theorem claim_C2 (c : Compiler) :
    (c.errors ≠ [] → mainOutcome c = .error (renderErrors c.errors))
  ∧ (c.errors = [] → mainOutcome c = .ok c.output)
  ∧ (∀ a, mainOutcome c = .ok a → c.errors = [] ∧ a = c.output) := by
  refine ⟨?_, ?_, ?_⟩
  · intro h
    have he : errored c = true := (errored_iff c).mpr h
    simp [mainOutcome, he]
  · intro h
    have he : errored c = false := by
      cases hb : errored c
      · rfl
      · exact absurd ((errored_iff c).mp hb) (by simp [h])
    simp [mainOutcome, he]
  · intro a h
    by_cases hb : errored c = true
    · simp [mainOutcome, hb] at h
    · have hf : errored c = false := by simpa using hb
      have : c.errors = [] := by
        by_contra hne
        exact absurd ((errored_iff c).mpr hne) (by simp [hf])
      refine ⟨this, ?_⟩
      simp [mainOutcome, hf] at h
      exact h.symm

theorem claim_C2_witness :
    mainOutcome { errors := [⟨3, "boom"⟩], output := "X" }
      = .error (renderErrors [⟨3, "boom"⟩])
  ∧ mainOutcome { output := "X" } = .ok "X" :=
  ⟨(claim_C2 { errors := [⟨3, "boom"⟩], output := "X" }).1 (by simp),
   (claim_C2 { output := "X" }).2.1 rfl⟩

/-
The parameter-size model: `var sizes = types.SizesFor("gc", "wasm")` (gx.go
line 222), i.e. gcSizes with word size 8 and maximal alignment 8, and
`goSizeOf` (named `sizeOf` in the source; the Lean name avoids the clash
with `SizeOf.sizeOf`), gx.go lines 224-227, which recovers from a panic inside
`sizes.Sizeof` (reached for type parameters) and then returns the zero value
0.  `underlyingOf` models types.Type.Underlying(): it unwraps a named type
once (in go/types an underlying type is never itself named).  Overflow
checks of the int64 arithmetic are not modeled.
-/

def underlyingOf : GoType → GoType
  | .named _ _ _ u => u
  | t => t

def basicSize : BasicKind → Int
  | .bool => 1
  | .int => 8
  | .float32 => 4
  | .float64 => 8
  | .string => 16
  | .uint8 => 1

/- go/types align(x, a): round x up to a multiple of a. -/
def alignUp (x a : Int) : Int := x + a - 1 - (x + a - 1) % a

/- The catch-all tail of gcSizes.Alignof: a = Sizeof(T), clamped to [1, 8]. -/
def capAlign (x : Int) : Int := if x < 1 then 1 else if x > 8 then 8 else x

mutual

def alignofCore : GoType → Option Int
  | .named _ _ _ u => alignofCore u
  | .array _ e => alignofCore e
  | .struct_ fs => alignFields fs
  | .slice _ => some 8
  | .interface_ => some 8
  | .basic .string => some 8
  | .basic k => some (capAlign (basicSize k))
  | .typeParam _ => none
  | .pointer _ => some 8
  | .signature _ => some 8
termination_by structural t => t

def alignFields : GoFields → Option Int
  | .nil => some 1
  | .cons _ _ ty rest => do
      let a ← alignofCore ty
      let b ← alignFields rest
      pure (max a b)
termination_by structural fs => fs

end

mutual

def sizeofCore : GoType → Option Int
  | .named _ _ _ u => sizeofCore u
  | .basic k => some (basicSize k)
  | .array n e =>
      if n ≤ 0 then some 0 else do
        let es ← sizeofCore e
        if es = 0 then pure 0 else do
          let a ← alignofCore e
          pure (alignUp es a * (n - 1) + es)
  | .slice _ => some 24
  | .struct_ .nil => some 0
  | .struct_ fs => do
      let ol ← fieldsLayout fs 0
      let sz := if 0 < ol.1 ∧ ol.2 = 0 then 1 else ol.2
      let a ← alignFields fs
      pure (alignUp (ol.1 + sz) a)
  | .interface_ => some 16
  | .typeParam _ => none
  | .pointer _ => some 8
  | .signature _ => some 8
termination_by structural t => t

/- Offsetsof: lay fields out sequentially, aligning each to its own
   alignment; returns the offset and the size of the last field. -/
def fieldsLayout : GoFields → Int → Option (Int × Int)
  | .nil, _ => none
  | .cons _ _ ty .nil, off => do
      let a ← alignofCore ty
      let sz ← sizeofCore ty
      pure (alignUp off a, sz)
  | .cons _ _ ty rest, off => do
      let a ← alignofCore ty
      let sz ← sizeofCore ty
      fieldsLayout rest (alignUp off a + sz)
termination_by structural fs _ => fs

end

def goSizeOf (t : GoType) : Int := (sizeofCore t).getD 0

/-
`genFuncDecl` (gx.go lines 229-314), memoized by declaration identity.
`addTypeParamsStr` is the `addTypeParams` closure (lines 240-252);
`recvTypeParams` is the receiver switch (lines 253-263); `addParam` is the
`addParam` closure (lines 285-298); `genParams` is the parameter loop
(lines 302-307), whose separator is written when i > 0 or a receiver exists.
-/

def joinTypenames : List String → String
  | [] => ""
  | [n] => "typename " ++ n
  | n :: rest => "typename " ++ n ++ ", " ++ joinTypenames rest

def addTypeParamsStr : List String → String
  | [] => ""
  | names => "template<" ++ joinTypenames names ++ ">\n"

def recvTypeParams : Option Param → List String
  | none => []
  | some p =>
      match p.ty with
      | .named _ tps _ _ => tps
      | .pointer (.named _ tps _ _) => tps
      | _ => []

def checkArraySlice (p : Param) (c : Compiler) : Compiler :=
  match underlyingOf p.ty with
  | .array _ _ =>
      errorf p.pos ("cannot pass array by value, use pointer to array *"
        ++ goString p.ty ++ " instead") c
  | .slice _ =>
      errorf p.pos ("cannot pass slice by value, use pointer to slice *"
        ++ goString p.ty ++ " instead") c
  | _ => c

def checkOversize (p : Param) (c : Compiler) : Compiler :=
  if goSizeOf p.ty > 96 then
    errorf p.pos (goString p.ty ++ " is large (" ++ toString (goSizeOf p.ty)
      ++ " bytes), consider passing by pointer instead") c
  else c

def addParam (p : Param) (c : Compiler) : String × Compiler :=
  let c := checkArraySlice p c
  let c := checkOversize p c
  let r := genTypeExpr p.ty p.pos c
  (r.1 ++ p.name, r.2)

def genParams (ps : List Param) (needSep : Bool) (c : Compiler) : String × Compiler :=
  match ps with
  | [] => ("", c)
  | p :: rest =>
      let r := addParam p c
      let r2 := genParams rest true r.2
      ((if needSep then ", " else "") ++ r.1 ++ r2.1, r2.2)

def genFuncDecl (d : FuncDecl) (c : Compiler) : String × Compiler :=
  match lookupA c.genFuncDecls d with
  | some result => (result, c)
  | none =>
      let pro := addTypeParamsStr (recvTypeParams d.recv) ++ addTypeParamsStr d.typeParams
      let ret : String × Compiler :=
        if d.results.length > 1 then
          ("", errorf d.resultsPos "multiple return values not supported" c)
        else
          match d.results with
          | [r] => genTypeExpr r.ty r.pos c
          | _ =>
              (if d.pkgName = "main" && d.name = "main" && d.recv.isNone
               then "int " else "void ", c)
      let recvPart : String × Compiler :=
        match d.recv with
        | some p => addParam p ret.2
        | none => ("", ret.2)
      let ps := genParams d.params d.recv.isSome recvPart.2
      let result := pro ++ ret.1 ++ d.name ++ "(" ++ recvPart.1 ++ ps.1 ++ ")"
      (result, { ps.2 with genFuncDecls := (d, result) :: ps.2.genFuncDecls })

/-
State-evolution lemmas: `genTypeExpr` (and the functions built on it) only
appends diagnostics and only writes the genTypeExprs cache; every other
Compiler field is untouched.
-/

def extendsErrs (c c' : Compiler) : Prop :=
  (∃ E, c'.errors = c.errors ++ E)
  ∧ c'.fieldIndices = c.fieldIndices
  ∧ c'.output = c.output
  ∧ c'.indent = c.indent
  ∧ c'.atBlockEnd = c.atBlockEnd

theorem extendsErrs_refl (c : Compiler) : extendsErrs c c :=
  ⟨⟨[], by simp⟩, rfl, rfl, rfl, rfl⟩

theorem extendsErrs_trans {a b c : Compiler}
    (h1 : extendsErrs a b) (h2 : extendsErrs b c) : extendsErrs a c := by
  obtain ⟨⟨E1, he1⟩, hf1, ho1, hi1, hb1⟩ := h1
  obtain ⟨⟨E2, he2⟩, hf2, ho2, hi2, hb2⟩ := h2
  exact ⟨⟨E1 ++ E2, by rw [he2, he1, List.append_assoc]⟩,
    by rw [hf2, hf1], by rw [ho2, ho1], by rw [hi2, hi1], by rw [hb2, hb1]⟩

theorem extendsErrs_errorf (pos : Pos) (msg : String) (c : Compiler) :
    extendsErrs c (errorf pos msg c) :=
  ⟨⟨[⟨pos, msg⟩], rfl⟩, rfl, rfl, rfl, rfl⟩

theorem extendsErrs_mem {a b : Compiler} (h : extendsErrs a b) {d : Diag}
    (hd : d ∈ a.errors) : d ∈ b.errors := by
  obtain ⟨⟨E, he⟩, _⟩ := h
  rw [he]
  exact List.mem_append_left E hd

mutual

theorem genTypeExpr_extends : ∀ (t : GoType) (pos : Pos) (c : Compiler),
    extendsErrs c (genTypeExpr t pos c).2
  | .basic k, pos, c => by
      cases h : lookupA c.genTypeExprs (.basic k) with
      | some r => cases k <;> simp only [genTypeExpr, h] <;> exact extendsErrs_refl c
      | none =>
          cases k <;> simp only [genTypeExpr, h] <;>
            first
              | exact extendsErrs_refl c
              | exact extendsErrs_errorf _ _ c
  | .pointer e, pos, c => by
      have IH := genTypeExpr_extends e pos c
      cases h : lookupA c.genTypeExprs (.pointer e) with
      | some r => simp only [genTypeExpr, h]; exact extendsErrs_refl c
      | none => simp only [genTypeExpr, h]; exact IH
  | .named n tps .nil u, pos, c => by
      cases h : lookupA c.genTypeExprs (.named n tps .nil u) <;>
        simp only [genTypeExpr, h] <;> exact extendsErrs_refl c
  | .named n tps (.cons t ts) u, pos, c => by
      have IH := genTypeArgs_extends true (.cons t ts) pos c
      cases h : lookupA c.genTypeExprs (.named n tps (.cons t ts) u) with
      | some r => simp only [genTypeExpr, h]; exact extendsErrs_refl c
      | none => simp only [genTypeExpr, h]; exact IH
  | .typeParam n, pos, c => by
      cases h : lookupA c.genTypeExprs (.typeParam n) <;>
        simp only [genTypeExpr, h] <;> exact extendsErrs_refl c
  | .signature r, pos, c => by
      cases h : lookupA c.genTypeExprs (.signature r) <;>
        simp only [genTypeExpr, h] <;> exact extendsErrs_refl c
  | .array l e, pos, c => by
      have IH := genTypeExpr_extends e pos c
      cases h : lookupA c.genTypeExprs (.array l e) with
      | some r => simp only [genTypeExpr, h]; exact extendsErrs_refl c
      | none => simp only [genTypeExpr, h]; exact IH
  | .slice e, pos, c => by
      have IH := genTypeExpr_extends e pos c
      cases h : lookupA c.genTypeExprs (.slice e) with
      | some r => simp only [genTypeExpr, h]; exact extendsErrs_refl c
      | none => simp only [genTypeExpr, h]; exact IH
  | .struct_ fs, pos, c => by
      cases h : lookupA c.genTypeExprs (.struct_ fs) with
      | some r => simp only [genTypeExpr, h]; exact extendsErrs_refl c
      | none => simp only [genTypeExpr, h]; exact extendsErrs_errorf _ _ c
  | .interface_, pos, c => by
      cases h : lookupA c.genTypeExprs .interface_ with
      | some r => simp only [genTypeExpr, h]; exact extendsErrs_refl c
      | none => simp only [genTypeExpr, h]; exact extendsErrs_errorf _ _ c
termination_by structural t => t

theorem genTypeArgs_extends : ∀ (first : Bool) (ts : GoTypes) (pos : Pos) (c : Compiler),
    extendsErrs c (genTypeArgs first ts pos c).2
  | _, .nil, pos, c => extendsErrs_refl c
  | first, .cons t ts, pos, c => by
      have IH1 := genTypeExpr_extends t pos c
      have IH2 := genTypeArgs_extends false ts pos (genTypeExpr t pos c).2
      simp only [genTypeArgs]
      exact extendsErrs_trans IH1 IH2
termination_by structural _ ts => ts

end

/- The oversized-parameter diagnostic of `checkOversize` (gx.go lines
   293-295). -/
def oversizeDiag (p : Param) : Diag :=
  ⟨p.pos, goString p.ty ++ " is large (" ++ toString (goSizeOf p.ty)
    ++ " bytes), consider passing by pointer instead"⟩

theorem checkArraySlice_extends (p : Param) (c : Compiler) :
    extendsErrs c (checkArraySlice p c) := by
  unfold checkArraySlice
  split
  · exact extendsErrs_errorf _ _ c
  · exact extendsErrs_errorf _ _ c
  · exact extendsErrs_refl c

theorem checkOversize_extends (p : Param) (c : Compiler) :
    extendsErrs c (checkOversize p c) := by
  unfold checkOversize
  split
  · exact extendsErrs_errorf _ _ c
  · exact extendsErrs_refl c

theorem addParam_extends (p : Param) (c : Compiler) :
    extendsErrs c (addParam p c).2 := by
  simp only [addParam]
  exact extendsErrs_trans (checkArraySlice_extends p c)
    (extendsErrs_trans (checkOversize_extends p (checkArraySlice p c))
      (genTypeExpr_extends p.ty p.pos (checkOversize p (checkArraySlice p c))))

theorem addParam_oversize (p : Param) (c : Compiler) (hbig : goSizeOf p.ty > 96) :
    oversizeDiag p ∈ (addParam p c).2.errors := by
  have h1 : oversizeDiag p ∈ (checkOversize p (checkArraySlice p c)).errors := by
    simp [checkOversize, hbig, errorf, oversizeDiag]
  simp only [addParam]
  exact extendsErrs_mem
    (genTypeExpr_extends p.ty p.pos (checkOversize p (checkArraySlice p c))) h1

theorem genParams_extends : ∀ (ps : List Param) (b : Bool) (c : Compiler),
    extendsErrs c (genParams ps b c).2
  | [], _, c => extendsErrs_refl c
  | p :: rest, b, c => by
      simp only [genParams]
      exact extendsErrs_trans (addParam_extends p c)
        (genParams_extends rest true (addParam p c).2)

theorem genParams_oversize : ∀ (ps : List Param) (b : Bool) (c : Compiler) (p : Param),
    p ∈ ps → goSizeOf p.ty > 96 → oversizeDiag p ∈ (genParams ps b c).2.errors
  | p0 :: rest, b, c, p, hp, hbig => by
      simp only [genParams]
      rcases List.mem_cons.mp hp with h | h
      · subst h
        exact extendsErrs_mem (genParams_extends rest true (addParam p c).2)
          (addParam_oversize p c hbig)
      · exact genParams_oversize rest true (addParam p0 c).2 p h hbig

/-- Claim C3: every function or method parameter passed by value (the receiver
included) whose size under the fixed size model (`goSizeOf`, i.e.
types.SizesFor("gc","wasm")) exceeds 96 bytes makes `genFuncDecl` record the
oversized-parameter diagnostic, whatever the parameter's type shape; and any
recorded diagnostic is blocking: a run whose diagnostic collection is
non-empty never produces an output artifact. -/
theorem claim_C3 (d : FuncDecl) (p : Param) (c : Compiler)
    (hp : p ∈ d.params ∨ d.recv = some p)
    (hbig : goSizeOf p.ty > 96)
    (hfresh : lookupA c.genFuncDecls d = none) :
    oversizeDiag p ∈ (genFuncDecl d c).2.errors
  ∧ (∀ s : Compiler, s.errors ≠ [] → ∀ a, mainOutcome s ≠ .ok a) := by
  constructor
  · simp only [genFuncDecl, hfresh]
    rcases hp with hp | hp
    · exact genParams_oversize d.params d.recv.isSome _ p hp hbig
    · rw [hp]
      exact extendsErrs_mem (genParams_extends d.params _ _)
        (addParam_oversize p _ hbig)
  · intro s hs a h
    have he : errored s = true := (errored_iff s).mpr hs
    simp [mainOutcome, he] at h

/- A 13-field struct of ints: 13 × 8 = 104 bytes under the wasm size model. -/
def bigFields : GoFields :=
  .cons 1 "a1" (.basic .int) (.cons 2 "a2" (.basic .int) (.cons 3 "a3" (.basic .int)
    (.cons 4 "a4" (.basic .int) (.cons 5 "a5" (.basic .int) (.cons 6 "a6" (.basic .int)
      (.cons 7 "a7" (.basic .int) (.cons 8 "a8" (.basic .int) (.cons 9 "a9" (.basic .int)
        (.cons 10 "a10" (.basic .int) (.cons 11 "a11" (.basic .int)
          (.cons 12 "a12" (.basic .int) (.cons 13 "a13" (.basic .int) .nil))))))))))))

def bigParam : Param := ⟨"x", .named "Big" [] .nil (.struct_ bigFields), 7⟩

def bigDecl : FuncDecl :=
  { name := "f", pkgName := "main", recv := none, typeParams := [],
    params := [bigParam], results := [], resultsPos := 3 }

theorem goSizeOf_bigParam : goSizeOf bigParam.ty = 104 := by decide

theorem claim_C3_witness :
    oversizeDiag bigParam ∈ (genFuncDecl bigDecl {}).2.errors
  ∧ (∀ s : Compiler, s.errors ≠ [] → ∀ a, mainOutcome s ≠ .ok a) :=
  claim_C3 bigDecl bigParam {} (.inl (by simp [bigDecl])) (by decide) rfl

/-- Claim C8: for a function declaration with zero result types, the rendered
signature's result is "int " exactly when the function is receiver-less,
named "main", and declared in package "main" (the program entry point), and
"void " otherwise; a function with more than one result type records the
"multiple return values not supported" diagnostic (gx.go lines 266-278). -/
theorem claim_C8 (d : FuncDecl) (c : Compiler)
    (hfresh : lookupA c.genFuncDecls d = none) :
    (d.results = [] →
      ∃ rest, (genFuncDecl d c).1
        = addTypeParamsStr (recvTypeParams d.recv) ++ addTypeParamsStr d.typeParams
          ++ (if d.pkgName = "main" && d.name = "main" && d.recv.isNone
              then "int " else "void ")
          ++ (d.name ++ "(" ++ rest ++ ")"))
  ∧ (d.results.length > 1 →
      ∃ E, (genFuncDecl d c).2.errors
        = c.errors ++ ⟨d.resultsPos, "multiple return values not supported"⟩ :: E) := by
  constructor
  · intro hres
    simp only [genFuncDecl, hfresh, hres]
    refine ⟨(match d.recv with
             | some p => addParam p c
             | none => ("", c)).1
        ++ (genParams d.params d.recv.isSome
             (match d.recv with
              | some p => addParam p c
              | none => ("", c)).2).1, ?_⟩
    simp [String.append_assoc]
  · intro hres
    have hlen : (decide (d.results.length > 1)) = true := by
      simpa using hres
    simp only [genFuncDecl, hfresh]
    rw [if_pos (by simpa using hres)]
    have h2 : extendsErrs (errorf d.resultsPos "multiple return values not supported" c)
        (genParams d.params d.recv.isSome
          (match d.recv with
           | some p => addParam p (errorf d.resultsPos "multiple return values not supported" c)
           | none => ("", errorf d.resultsPos "multiple return values not supported" c)).2).2 := by
      cases hr : d.recv with
      | none => exact genParams_extends _ _ _
      | some p => exact extendsErrs_trans (addParam_extends p _) (genParams_extends _ _ _)
    obtain ⟨⟨E, hE⟩, _⟩ := h2
    refine ⟨E, ?_⟩
    simpa [errorf] using hE

def entryDecl : FuncDecl :=
  { name := "main", pkgName := "main", recv := none, typeParams := [],
    params := [], results := [], resultsPos := 0 }

def twoResultsDecl : FuncDecl :=
  { name := "g", pkgName := "main", recv := none, typeParams := [],
    params := [], results := [⟨"", .basic .int, 1⟩, ⟨"", .basic .bool, 2⟩],
    resultsPos := 11 }

theorem claim_C8_witness :
    (∃ rest, (genFuncDecl entryDecl {}).1
        = addTypeParamsStr (recvTypeParams entryDecl.recv)
          ++ addTypeParamsStr entryDecl.typeParams
          ++ (if entryDecl.pkgName = "main" && entryDecl.name = "main"
                && entryDecl.recv.isNone then "int " else "void ")
          ++ (entryDecl.name ++ "(" ++ rest ++ ")"))
  ∧ (∃ E, (genFuncDecl twoResultsDecl {}).2.errors
        = ({} : Compiler).errors
          ++ ⟨twoResultsDecl.resultsPos, "multiple return values not supported"⟩ :: E) :=
  ⟨(claim_C8 entryDecl {} rfl).1 rfl,
   (claim_C8 twoResultsDecl {} rfl).2 (by decide)⟩

/-
The expression layer (gx.go lines 316-544).  Each go/ast expression node
carries its position and the type-checker facts gx.go reads about it:
`TV` holds `c.types.TypeOf(e)` and `c.types.Types[e].Addressable()`;
`IdentData` additionally holds, for an identifier, `IsBuiltin()`, the
identity of `ObjectOf(ident)` (used for struct-field ordinals), the type of
`Uses[ident]` (used for method detection on a selector's Sel), and
`Instances[ident].TypeArgs` (nil ↔ `GoTypes.nil`).
-/

structure TV where
  ty : Option GoType
  addressable : Bool
deriving DecidableEq

structure IdentData where
  name : String
  isBuiltin : Bool
  objId : Nat
  useType : Option GoType
  instTypeArgs : GoTypes
deriving DecidableEq

inductive LitKind where
  | int | float | string | char | imag
deriving DecidableEq

inductive UnOp where
  | add | sub | not | and | other
deriving DecidableEq

inductive BinOp where
  | eql | neq | lss | leq | gtr | geq
  | add | sub | mul | quo | rem
  | and | or | xor | shl | shr
  | other
deriving DecidableEq

/- token.Token.String() for the supported binary operators. -/
def binOpString : BinOp → String
  | .eql => "=="
  | .neq => "!="
  | .lss => "<"
  | .leq => "<="
  | .gtr => ">"
  | .geq => ">="
  | .add => "+"
  | .sub => "-"
  | .mul => "*"
  | .quo => "/"
  | .rem => "%"
  | .and => "&"
  | .or => "|"
  | .xor => "^"
  | .shl => "<<"
  | .shr => ">>"
  | .other => ""

mutual
inductive Expr where
  | ident (pos : Pos) (tv : TV) (d : IdentData)
  | basicLit (pos : Pos) (tv : TV) (kind : LitKind) (value : String)
  | compositeLit (pos : Pos) (tv : TV) (litType : GoType) (sameLine : Bool) (elts : Exprs)
  | paren (pos : Pos) (tv : TV) (x : Expr)
  | selector (pos : Pos) (tv : TV) (x : Expr) (sel : IdentData)
  | indexE (pos : Pos) (tv : TV) (x : Expr) (idx : Expr)
  | call (pos : Pos) (tv : TV) (fn : Expr) (args : Exprs)
  | star (pos : Pos) (tv : TV) (x : Expr)
  | unary (opPos : Pos) (tv : TV) (op : UnOp) (x : Expr)
  | binary (opPos : Pos) (tv : TV) (op : BinOp) (x : Expr) (y : Expr)
  | keyValue (pos : Pos) (tv : TV) (key : Expr) (value : Expr)
  | unknown (pos : Pos) (tv : TV)

inductive Exprs where
  | nil
  | cons (e : Expr) (es : Exprs)
end

def Expr.tvOf : Expr → TV
  | .ident _ tv _ => tv
  | .basicLit _ tv _ _ => tv
  | .compositeLit _ tv _ _ _ => tv
  | .paren _ tv _ => tv
  | .selector _ tv _ _ => tv
  | .indexE _ tv _ _ => tv
  | .call _ tv _ _ => tv
  | .star _ tv _ => tv
  | .unary _ tv _ _ => tv
  | .binary _ tv _ _ _ => tv
  | .keyValue _ tv _ _ => tv
  | .unknown _ tv => tv

def isPtr : GoType → Bool
  | .pointer _ => true
  | _ => false

/- `_, ok := typ.(*types.Pointer)` on a possibly-absent TypeOf result. -/
def isPtrO : Option GoType → Bool
  | some (.pointer _) => true
  | _ => false

/- `writeIdent` (gx.go lines 320-325). -/
def writeIdent (d : IdentData) (c : Compiler) : Compiler :=
  let c := if d.isBuiltin then write "gx::" c else c
  write d.name c

/- `writeBasicLit` (gx.go lines 327-334). -/
def writeBasicLit (pos : Pos) (kind : LitKind) (value : String) (c : Compiler) : Compiler :=
  match kind with
  | .int => write value c
  | .float => write value c
  | .string => write value c
  | _ => errorf pos "unsupported literal kind" c

/- `computeFieldIndices` (gx.go lines 72-83): fieldIndices[field i] := i,
   skipped when the first field is already present. -/
def addFieldIndices : GoFields → Nat → List (Nat × Nat) → List (Nat × Nat)
  | .nil, _, m => m
  | .cons id _ _ rest, i, m => addFieldIndices rest (i + 1) ((id, i) :: m)

def computeFieldIndices (fields : GoFields) (c : Compiler) : Compiler :=
  match fields with
  | .nil => c
  | .cons id0 _ _ _ =>
      if (lookupA c.fieldIndices id0).isSome then c
      else { c with fieldIndices := addFieldIndices fields 0 c.fieldIndices }

/- The resolved field variable of a keyed element
   (`c.types.ObjectOf(elt.(*ast.KeyValueExpr).Key.(*ast.Ident))`).  On any
   other element shape the Go code's type assertions would panic; such
   elements do not occur in type-checked keyed literals. -/
def eltKeyObjId : Expr → Nat
  | .keyValue _ _ (.ident _ _ d) _ => d.objId
  | _ => 0

/- The field-order loop of `writeCompositeLit` (gx.go lines 359-368):
   a key whose ordinal regresses records one diagnostic and stops. -/
def checkFieldOrder (litPos : Pos) (elts : Exprs) (lastIndex : Nat) (c : Compiler) : Compiler :=
  match elts with
  | .nil => c
  | .cons elt rest =>
      let index := (lookupA c.fieldIndices (eltKeyObjId elt)).getD 0
      if index < lastIndex then
        errorf litPos "struct literal fields must appear in definition order" c
      else
        checkFieldOrder litPos rest index c

def eltsHeadIsKV : Exprs → Bool
  | .cons (.keyValue _ _ _ _) _ => true
  | _ => false

/- The Instances type-argument loop of `writeCallExpr` (gx.go lines
   447-456). -/
def writeInstArgs (first : Bool) (ts : GoTypes) (pos : Pos) (c : Compiler) : Compiler :=
  match ts with
  | .nil => c
  | .cons t rest =>
      let c := if first then c else write ", " c
      let r := genTypeExpr t pos c
      let c := write (trimFinalSpace r.1) r.2
      writeInstArgs false rest pos c

/-
`writeExpr` and its per-node writers (gx.go lines 352-544).  Because Lean's
structural mutual recursion cannot dispatch through a same-sized sibling
(the Go style `writeExpr` → `writeCallExpr(call)` → `writeExpr(call.Fun)`),
the per-node writer bodies are inlined as arms of `writeExpr`; each arm is
annotated with the source function it is the body of.  A call whose callee
is a selector or an identifier is handled in a specialized arm; the
non-method selector-callee rendering is the `writeSelectorExpr` body, and
the identifier-callee rendering is the `writeIdent` + Instances rendering,
exactly as the Go dispatch produces.
-/

mutual

def writeExpr : Expr → Compiler → Compiler
  -- writeIdent
  | .ident _ _ d, c => writeIdent d c
  -- writeBasicLit
  | .basicLit pos _ kind value, c => writeBasicLit pos kind value c
  -- writeCompositeLit (gx.go lines 352-391)
  | .compositeLit pos _ litType sameLine elts, c =>
      let r := genTypeExpr litType pos c
      let c := write r.1 r.2
      let c := write "\x7b" c
      let c :=
        match elts with
        | .nil => c
        | elts =>
            let c :=
              if eltsHeadIsKV elts then
                match underlyingOf litType with
                | .struct_ fields =>
                    let c := computeFieldIndices fields c
                    checkFieldOrder pos elts 0 c
                | _ => c
              else c
            if sameLine then
              let c := write " " c
              let c := writeEltsInline true elts c
              write " " c
            else
              let c := write "\n" c
              let c := { c with indent := c.indent + 1 }
              let c := writeEltsLines elts c
              { c with indent := c.indent - 1 }
      write "\x7d" c
  -- writeParenExpr (gx.go lines 393-397)
  | .paren _ _ x, c =>
      let c := write "(" c
      let c := writeExpr x c
      write ")" c
  -- writeSelectorExpr (gx.go lines 399-407)
  | .selector _ _ x sel, c =>
      let c := writeExpr x c
      let c := if isPtrO x.tvOf.ty then write "->" c else write "." c
      writeIdent sel c
  -- writeIndexExpr (gx.go lines 409-420)
  | .indexE _ _ x idx, c =>
      let c :=
        if isPtrO x.tvOf.ty then
          let c := write "(*(" c
          let c := writeExpr x c
          write "))" c
        else writeExpr x c
      let c := write "[" c
      let c := writeExpr idx c
      write "]" c
  -- writeCallExpr (gx.go lines 422-467), callee is a selector: a method
  -- call when Uses[sel.Sel] is a signature with a receiver, otherwise the
  -- ordinary path whose writeExpr(call.Fun) is the writeSelectorExpr body
  | .call _ _ (.selector _ _ x sel) args, c =>
      match sel.useType with
      | some (.signature (some recvT)) =>
          let c := writeIdent sel c
          let c := write "(" c
          let xPtr := isPtrO x.tvOf.ty
          let recvPtr := isPtr recvT
          let c :=
            if xPtr && !recvPtr then
              let c := write "*(" c
              let c := writeExpr x c
              write ")" c
            else if !xPtr && recvPtr then
              let c := write "&(" c
              let c := writeExpr x c
              write ")" c
            else writeExpr x c
          let c := writeCallArgs true args c
          write ")" c
      | _ =>
          let c := writeExpr x c
          let c := if isPtrO x.tvOf.ty then write "->" c else write "." c
          let c := writeIdent sel c
          let c := write "(" c
          let c := writeCallArgs false args c
          write ")" c
  -- writeCallExpr, callee is an identifier: writeExpr(call.Fun) is
  -- writeIdent, followed by the Instances type-argument list
  | .call _ _ (.ident ipos _ d) args, c =>
      let c := writeIdent d c
      let c :=
        match d.instTypeArgs with
        | .nil => c
        | targs =>
            let c := write "<" c
            let c := writeInstArgs true targs ipos c
            write ">" c
      let c := write "(" c
      let c := writeCallArgs false args c
      write ")" c
  -- writeCallExpr, any other callee shape
  | .call _ _ fn args, c =>
      let c := writeExpr fn c
      let c := write "(" c
      let c := writeCallArgs false args c
      write ")" c
  -- writeStarExpr (gx.go lines 469-472)
  | .star _ _ x, c =>
      let c := write "*" c
      writeExpr x c
  -- writeUnaryExpr (gx.go lines 474-487)
  | .unary opPos _ op x, c =>
      let c :=
        match op with
        | .add => write "+" c
        | .sub => write "-" c
        | .not => write "!" c
        | .and =>
            let c :=
              if !x.tvOf.addressable then
                errorf opPos "cannot take address of a temporary object" c
              else c
            write "&" c
        | .other => errorf opPos "unsupported unary operator" c
      writeExpr x c
  -- writeBinaryExpr (gx.go lines 489-502)
  | .binary opPos _ op x y, c =>
      let c := writeExpr x c
      let c := write " " c
      let c :=
        match op with
        | .other => errorf opPos "unsupported binary operator" c
        | op => write (binOpString op) c
      let c := write " " c
      writeExpr y c
  -- writeKeyValueExpr (gx.go lines 504-513)
  | .keyValue pos _ key value, c =>
      match key with
      | .ident _ _ d =>
          let c := write "." c
          let c := write d.name c
          let c := write " = " c
          writeExpr value c
      | _ => errorf pos "unsupported literal key" c
  -- writeExpr default arm (gx.go lines 541-543)
  | .unknown pos _, c => errorf pos "unsupported expression type" c
termination_by structural e => e

/- The single-line element loop of writeCompositeLit (lines 373-378). -/
def writeEltsInline (first : Bool) (elts : Exprs) (c : Compiler) : Compiler :=
  match elts with
  | .nil => c
  | .cons e rest =>
      let c := if first then c else write ", " c
      let c := writeExpr e c
      writeEltsInline false rest c
termination_by structural elts

/- The multi-line element loop of writeCompositeLit (lines 382-386). -/
def writeEltsLines (elts : Exprs) (c : Compiler) : Compiler :=
  match elts with
  | .nil => c
  | .cons e rest =>
      let c := writeExpr e c
      let c := write ",\n" c
      writeEltsLines rest c
termination_by structural elts

/- The argument loop of writeCallExpr (lines 460-465): a separator before
   every argument but the first, and before every argument of a method
   call (where the receiver is already the first argument). -/
def writeCallArgs (sep : Bool) (args : Exprs) (c : Compiler) : Compiler :=
  match args with
  | .nil => c
  | .cons a rest =>
      let c := if sep then write ", " c else c
      let c := writeExpr a c
      writeCallArgs true rest c
termination_by structural args

end

theorem endsNl_append (s t : String) :
    endsNl (s ++ t) = if t.data = [] then endsNl s else endsNl t := by
  by_cases h : t.data = []
  · have : t = "" := by
      cases t with
      | mk d => simp at h; simp [h]
    subst this
    simp [endsNl]
  · simp only [endsNl, String.data_append, h, if_false, eq_self_iff_true]
    rw [List.getLast?_append_of_ne_nil _ h]

theorem write_eq (s : String) (c : Compiler) (h : endsNl c.output = false) :
    write s c = { c with atBlockEnd := false, output := c.output ++ s } := by
  simp [write, h]

theorem endsNl_append_false (s t : String) (hs : endsNl s = false)
    (ht : endsNl t = false) : endsNl (s ++ t) = false := by
  rw [endsNl_append]
  split <;> assumption

/-- Claim C1 (amended): for a call whose callee is a selector resolving to a
method (Uses[sel.Sel] a signature with a receiver): (1) if the receiver
parameter is pointer-typed and the call's base expression is value-typed, the
lowering emits an address-of around the base unconditionally — it performs no
addressability check and records no diagnostic there, whatever the base's
Addressable() flag (non-addressable receivers are rejected by the upstream
go/types check before emission runs); (2) if the receiver parameter is
value-typed and the base is pointer-typed, a dereference is emitted around the
base; (3) the "cannot take address of a temporary object" diagnostic is
recorded only by the unary address-of lowering, for an explicit & whose
operand is not addressable. -/
theorem claim_C1 (c : Compiler) (h0 : endsNl c.output = false) :
    (∀ (cpos spos bpos : Pos) (ctv stv btv : TV) (bd sel : IdentData) (R : GoType),
      sel.useType = some (.signature (some (.pointer R))) →
      isPtrO btv.ty = false →
      sel.isBuiltin = false → bd.isBuiltin = false →
      endsNl sel.name = false → endsNl bd.name = false →
      writeExpr (.call cpos ctv (.selector spos stv (.ident bpos btv bd) sel) .nil) c
        = { c with
            atBlockEnd := false
            output := c.output ++ sel.name ++ "(" ++ "&(" ++ bd.name ++ ")" ++ ")" })
  ∧ (∀ (cpos spos bpos : Pos) (ctv stv : TV) (T : GoType) (badr : Bool)
        (bd sel : IdentData) (recvT : GoType),
      sel.useType = some (.signature (some recvT)) →
      isPtr recvT = false →
      sel.isBuiltin = false → bd.isBuiltin = false →
      endsNl sel.name = false → endsNl bd.name = false →
      writeExpr (.call cpos ctv
          (.selector spos stv (.ident bpos ⟨some (.pointer T), badr⟩ bd) sel) .nil) c
        = { c with
            atBlockEnd := false
            output := c.output ++ sel.name ++ "(" ++ "*(" ++ bd.name ++ ")" ++ ")" })
  ∧ (∀ (opPos bpos : Pos) (utv : TV) (bty : Option GoType) (bd : IdentData),
      bd.isBuiltin = false →
      writeExpr (.unary opPos utv .and (.ident bpos ⟨bty, false⟩ bd)) c
        = { c with
            atBlockEnd := false
            output := c.output ++ "&" ++ bd.name
            errors := c.errors ++ [⟨opPos, "cannot take address of a temporary object"⟩] }) := by
  refine ⟨?_, ?_, ?_⟩
  · intro cpos spos bpos ctv stv btv bd sel R hu hbty hsb hbb hsel hbd
    have e1 : endsNl (c.output ++ sel.name) = false := endsNl_append_false _ _ h0 hsel
    have e2 : endsNl (c.output ++ sel.name ++ "(") = false :=
      endsNl_append_false _ _ e1 (by decide)
    have e3 : endsNl (c.output ++ sel.name ++ "(" ++ "&(") = false :=
      endsNl_append_false _ _ e2 (by decide)
    have e4 : endsNl (c.output ++ sel.name ++ "(" ++ "&(" ++ bd.name) = false :=
      endsNl_append_false _ _ e3 hbd
    have e5 : endsNl (c.output ++ sel.name ++ "(" ++ "&(" ++ bd.name ++ ")") = false :=
      endsNl_append_false _ _ e4 (by decide)
    simp only [writeExpr]
    rw [hu]
    simp only [writeIdent, hsb, hbb, Bool.false_eq_true, if_false, Expr.tvOf, hbty, isPtr,
      Bool.not_false, Bool.false_and, Bool.and_true, Bool.true_and, Bool.and_self, if_true,
      writeCallArgs, write_eq, h0, e1, e2, e3, e4, e5]
  · intro cpos spos bpos ctv stv T badr bd sel recvT hu hrp hsb hbb hsel hbd
    have e1 : endsNl (c.output ++ sel.name) = false := endsNl_append_false _ _ h0 hsel
    have e2 : endsNl (c.output ++ sel.name ++ "(") = false :=
      endsNl_append_false _ _ e1 (by decide)
    have e3 : endsNl (c.output ++ sel.name ++ "(" ++ "*(") = false :=
      endsNl_append_false _ _ e2 (by decide)
    have e4 : endsNl (c.output ++ sel.name ++ "(" ++ "*(" ++ bd.name) = false :=
      endsNl_append_false _ _ e3 hbd
    have e5 : endsNl (c.output ++ sel.name ++ "(" ++ "*(" ++ bd.name ++ ")") = false :=
      endsNl_append_false _ _ e4 (by decide)
    simp only [writeExpr]
    rw [hu]
    simp only [writeIdent, hsb, hbb, Bool.false_eq_true, if_false, Expr.tvOf, isPtrO, hrp,
      Bool.not_false, Bool.false_and, Bool.and_true, Bool.true_and, Bool.and_self,
      Bool.true_and, Bool.and_false, if_true, writeCallArgs, write_eq, h0, e1, e2, e3, e4, e5]
  · intro opPos bpos utv bty bd hbb
    have e1 : endsNl (c.output ++ "&") = false := endsNl_append_false _ _ h0 (by decide)
    simp only [writeExpr, Expr.tvOf, Bool.not_false, if_true, writeIdent, hbb,
      Bool.false_eq_true, if_false, write_eq, h0, e1, errorf]

/- A pointer-receiver method call on a non-addressable value-typed base:
   the base `v` has Addressable() = false, its type is the value type V,
   and `M`'s receiver parameter has type *V. -/
def nonAddressableMethodCall : Expr :=
  .call 10 ⟨none, false⟩
    (.selector 11 ⟨none, false⟩
      (.ident 12 ⟨some (.named "V" [] .nil (.struct_ .nil)), false⟩
        ⟨"v", false, 1, none, .nil⟩)
      ⟨"M", false, 2,
        some (.signature (some (.pointer (.named "V" [] .nil (.struct_ .nil))))), .nil⟩)
    .nil

theorem claim_C1_counterexample :
    (writeExpr nonAddressableMethodCall {}).errors = []
  ∧ (writeExpr nonAddressableMethodCall {}).output = "M(&(v))" := by
  constructor
  · decide
  · decide

theorem claim_C1_witness :
    (writeExpr (.call 10 ⟨none, false⟩
        (.selector 11 ⟨none, false⟩
          (.ident 12 ⟨some (.named "V" [] .nil (.struct_ .nil)), false⟩
            ⟨"v", false, 1, none, .nil⟩)
          ⟨"M", false, 2,
            some (.signature (some (.pointer (.named "V" [] .nil (.struct_ .nil))))), .nil⟩)
        .nil) {})
      = { ({} : Compiler) with
          atBlockEnd := false
          output := ({} : Compiler).output ++ "M" ++ "(" ++ "&(" ++ "v" ++ ")" ++ ")" }
  ∧ (writeExpr (.unary 21 ⟨none, false⟩ .and
        (.ident 22 ⟨some (.named "V" [] .nil (.struct_ .nil)), false⟩
          ⟨"w", false, 3, none, .nil⟩)) {})
      = { ({} : Compiler) with
          atBlockEnd := false
          output := ({} : Compiler).output ++ "&" ++ "w"
          errors := ({} : Compiler).errors
            ++ [⟨21, "cannot take address of a temporary object"⟩] } :=
  ⟨(claim_C1 {} rfl).1 10 11 12 ⟨none, false⟩ ⟨none, false⟩
      ⟨some (.named "V" [] .nil (.struct_ .nil)), false⟩
      ⟨"v", false, 1, none, .nil⟩
      ⟨"M", false, 2,
        some (.signature (some (.pointer (.named "V" [] .nil (.struct_ .nil))))), .nil⟩
      (.named "V" [] .nil (.struct_ .nil)) rfl rfl rfl rfl rfl rfl,
   (claim_C1 {} rfl).2.2 21 22 ⟨none, false⟩
      (some (.named "V" [] .nil (.struct_ .nil))) ⟨"w", false, 3, none, .nil⟩ rfl⟩

/-
Claim C7 support: a keyed struct literal whose keys resolve to field
variables.  `mkKeyedElts` builds the element list `key: 1` for a list of
resolved field-variable identities; `fieldOrdsOf` is the ordinal each key
resolves to through the `fieldIndices` map that `computeFieldIndices` builds;
`ordsOk` mirrors the `lastIndex` scan of `writeCompositeLit`.
-/

def mkKeyedElts : List Nat → Exprs
  | [] => .nil
  | k :: rest =>
      .cons (.keyValue 0 ⟨none, false⟩
               (.ident 0 ⟨none, false⟩ ⟨"k", false, k, none, .nil⟩)
               (.basicLit 0 ⟨none, false⟩ .int "1"))
        (mkKeyedElts rest)

def ordsOk (last : Nat) : List Nat → Bool
  | [] => true
  | o :: rest => if o < last then false else ordsOk o rest

def fieldOrdsOf (fields : GoFields) (keys : List Nat) : List Nat :=
  keys.map (fun k => (lookupA (addFieldIndices fields 0 []) k).getD 0)

theorem write_errors (s : String) (c : Compiler) : (write s c).errors = c.errors := rfl

theorem write_fieldIndices (s : String) (c : Compiler) :
    (write s c).fieldIndices = c.fieldIndices := rfl

theorem checkFieldOrder_spec (pos : Pos) (keys : List Nat) (last : Nat) (c : Compiler) :
    checkFieldOrder pos (mkKeyedElts keys) last c
      = if ordsOk last (keys.map (fun k => (lookupA c.fieldIndices k).getD 0))
        then c
        else errorf pos "struct literal fields must appear in definition order" c := by
  induction keys generalizing last with
  | nil => simp [mkKeyedElts, checkFieldOrder, ordsOk]
  | cons k rest ih =>
      simp only [mkKeyedElts, checkFieldOrder, eltKeyObjId, List.map_cons, ordsOk]
      by_cases h : (lookupA c.fieldIndices k).getD 0 < last
      · simp [h]
      · simp [h, ih]

theorem writeEltsInline_errors (keys : List Nat) (first : Bool) (c : Compiler) :
    (writeEltsInline first (mkKeyedElts keys) c).errors = c.errors := by
  induction keys generalizing first c with
  | nil => simp [mkKeyedElts, writeEltsInline]
  | cons k rest ih =>
      simp only [mkKeyedElts, writeEltsInline, writeExpr, writeBasicLit, write_errors, ih]
      split <;> simp [write_errors]

theorem writeEltsInline_fieldIndices (keys : List Nat) (first : Bool) (c : Compiler) :
    (writeEltsInline first (mkKeyedElts keys) c).fieldIndices = c.fieldIndices := by
  induction keys generalizing first c with
  | nil => simp [mkKeyedElts, writeEltsInline]
  | cons k rest ih =>
      simp only [mkKeyedElts, writeEltsInline, writeExpr, writeBasicLit, write_fieldIndices, ih]
      split <;> simp [write_fieldIndices]

theorem genTypeExpr_named_nil_state (n : String) (tps : List String) (u : GoType)
    (pos : Pos) (c : Compiler) :
    (genTypeExpr (.named n tps .nil u) pos c).2.errors = c.errors
  ∧ (genTypeExpr (.named n tps .nil u) pos c).2.fieldIndices = c.fieldIndices := by
  cases h : lookupA c.genTypeExprs (.named n tps .nil u) <;>
    simp [genTypeExpr, h]

theorem mkKeyedElts_cons (k : Nat) (rest : List Nat) :
    Exprs.cons (.keyValue 0 ⟨none, false⟩
        (.ident 0 ⟨none, false⟩ ⟨"k", false, k, none, .nil⟩)
        (.basicLit 0 ⟨none, false⟩ .int "1")) (mkKeyedElts rest)
      = mkKeyedElts (k :: rest) := rfl

theorem computeFieldIndices_of_empty (fields : GoFields) (c : Compiler)
    (h : c.fieldIndices = []) :
    computeFieldIndices fields c = { c with fieldIndices := addFieldIndices fields 0 [] } := by
  cases fields with
  | nil =>
      cases c
      simp only [computeFieldIndices, addFieldIndices]
      simp_all
  | cons id0 n ty rest =>
      simp [computeFieldIndices, h, lookupA]

/-- Claim C7: for a keyed struct composite literal (keys resolving to the
struct's field variables), if the key ordinals are non-decreasing no
diagnostic is recorded for the literal; on the first ordinal regression
exactly one "struct literal fields must appear in definition order"
diagnostic is recorded at the literal's position (the scan stops at the
regression); and any recorded diagnostic suppresses the artifact. -/
theorem claim_C7 (c : Compiler) (hf : c.fieldIndices = [])
    (pos : Pos) (ctv : TV) (sname : String) (fields : GoFields) (keys : List Nat) :
    ((writeExpr (.compositeLit pos ctv (.named sname [] .nil (.struct_ fields)) true
        (mkKeyedElts keys)) c).errors
      = c.errors ++ (if ordsOk 0 (fieldOrdsOf fields keys) then []
                     else [⟨pos, "struct literal fields must appear in definition order"⟩]))
  ∧ (∀ s : Compiler, s.errors ≠ [] → ∀ a, mainOutcome s ≠ .ok a) := by
  constructor
  · have hg := genTypeExpr_named_nil_state sname [] (.struct_ fields) pos c
    cases keys with
    | nil =>
        simp [writeExpr, mkKeyedElts, write_errors, hg.1, fieldOrdsOf, ordsOk]
    | cons k rest =>
        have hfi : (write "\x7b"
            (write (genTypeExpr (.named sname [] .nil (.struct_ fields)) pos c).1
              (genTypeExpr (.named sname [] .nil (.struct_ fields)) pos c).2)).fieldIndices
            = [] := by
          simp [write_fieldIndices, hg.2, hf]
        simp only [writeExpr, mkKeyedElts, eltsHeadIsKV, underlyingOf, if_true]
        simp only [mkKeyedElts_cons]
        rw [computeFieldIndices_of_empty _ _ hfi]
        rw [checkFieldOrder_spec]
        simp only [write_errors]
        split
        · rename_i hok
          simp only [writeEltsInline_errors, write_errors, hg.1]
          simp [fieldOrdsOf] at hok
          simp [fieldOrdsOf, mkKeyedElts, hok]
        · rename_i hbad
          simp only [writeEltsInline_errors, write_errors, errorf, hg.1]
          simp [fieldOrdsOf] at hbad
          simp [fieldOrdsOf, mkKeyedElts, hbad]
  · intro s hs a h
    have he : errored s = true := (errored_iff s).mpr hs
    simp [mainOutcome, he] at h

def fieldsXY : GoFields := .cons 1 "x" (.basic .int) (.cons 2 "y" (.basic .int) .nil)

theorem claim_C7_witness :
    ((writeExpr (.compositeLit 4 ⟨none, false⟩ (.named "S" [] .nil (.struct_ fieldsXY)) true
        (mkKeyedElts [2, 1])) {}).errors
      = ({} : Compiler).errors
        ++ (if ordsOk 0 (fieldOrdsOf fieldsXY [2, 1]) then []
            else [⟨4, "struct literal fields must appear in definition order"⟩]))
  ∧ ((writeExpr (.compositeLit 5 ⟨none, false⟩ (.named "S" [] .nil (.struct_ fieldsXY)) true
        (mkKeyedElts [1, 2])) {}).errors
      = ({} : Compiler).errors
        ++ (if ordsOk 0 (fieldOrdsOf fieldsXY [1, 2]) then []
            else [⟨5, "struct literal fields must appear in definition order"⟩])) :=
  ⟨(claim_C7 {} rfl 4 ⟨none, false⟩ "S" fieldsXY [2, 1]).1,
   (claim_C7 {} rfl 5 ⟨none, false⟩ "S" fieldsXY [1, 2]).1⟩

/-
`writeAssignStmt` (gx.go lines 554-576).  The assignment operator tokens the
code accepts, with token.Token.String() for the write; `define` (`:=`)
renders an `auto ` binder and a plain `=`.  The other statement writers are
not needed by the verified claims and are not embedded.
-/

inductive AsgnOp where
  | define | assign
  | addAssign | subAssign | mulAssign | quoAssign | remAssign
  | andAssign | orAssign | xorAssign | shlAssign | shrAssign
  | other
deriving DecidableEq

def asgnOpString : AsgnOp → String
  | .define => ":="
  | .assign => "="
  | .addAssign => "+="
  | .subAssign => "-="
  | .mulAssign => "*="
  | .quoAssign => "/="
  | .remAssign => "%="
  | .andAssign => "&="
  | .orAssign => "|="
  | .xorAssign => "^="
  | .shlAssign => "<<="
  | .shrAssign => ">>="
  | .other => ""

structure AssignStmt where
  pos : Pos
  tokPos : Pos
  lhs : List Expr
  tok : AsgnOp
  rhs : List Expr

def writeAssignStmt (stmt : AssignStmt) (c : Compiler) : Compiler :=
  if stmt.lhs.length ≠ 1 then
    errorf stmt.pos "multi-value assignment unsupported" c
  else
    let c := if stmt.tok = .define then write "auto " c else c
    let c :=
      match stmt.lhs with
      | l :: _ => writeExpr l c
      | [] => c
    let c := write " " c
    let c :=
      match stmt.tok with
      | .define => write "=" c
      | .other => errorf stmt.tokPos "unsupported assignment operator" c
      | op => write (asgnOpString op) c
    let c := write " " c
    match stmt.rhs with
    | r :: _ => writeExpr r c
    | [] => c

/- Memoization lemmas for `genFuncDecl`, mirroring those of `genTypeExpr`. -/
theorem genFuncDecl_memo_lookup (d : FuncDecl) (c : Compiler) :
    lookupA ((genFuncDecl d c).2).genFuncDecls d = some ((genFuncDecl d c).1) := by
  cases h : lookupA c.genFuncDecls d <;> simp [genFuncDecl, h, lookupA]

theorem genFuncDecl_hit (d : FuncDecl) (c : Compiler) (r : String)
    (h : lookupA c.genFuncDecls d = some r) :
    genFuncDecl d c = (r, c) := by
  simp [genFuncDecl, h]

/-- Claim C9: a function declaring two result types yields exactly one
diagnostic, at the results node's position, even though the signature is
rendered once for the forward declaration and once for the definition — the
second `genFuncDecl` request is answered from the memo cache and changes
nothing; an assignment with two left-hand targets yields exactly one
diagnostic at the statement's position (the writer returns immediately,
leaving output untouched); any recorded diagnostic suppresses the
artifact. -/
theorem claim_C9 (d : FuncDecl) (c : Compiler)
    (hres : d.results.length = 2)
    (hrecv : d.recv = none) (hparams : d.params = [])
    (hfresh : lookupA c.genFuncDecls d = none) :
    ((genFuncDecl d c).2.errors
        = c.errors ++ [⟨d.resultsPos, "multiple return values not supported"⟩])
  ∧ (genFuncDecl d ((genFuncDecl d c).2)
        = ((genFuncDecl d c).1, (genFuncDecl d c).2))
  ∧ (∀ (s : AssignStmt) (c' : Compiler), s.lhs.length = 2 →
      writeAssignStmt s c'
        = { c' with errors := c'.errors ++ [⟨s.pos, "multi-value assignment unsupported"⟩] })
  ∧ (∀ s : Compiler, s.errors ≠ [] → ∀ a, mainOutcome s ≠ .ok a) := by
  refine ⟨?_, ?_, ?_, ?_⟩
  · have h2 : d.results.length > 1 := by omega
    simp only [genFuncDecl, hfresh, hrecv, hparams]
    rw [if_pos (by simpa using h2)]
    simp [genParams, errorf]
  · exact genFuncDecl_hit d ((genFuncDecl d c).2) ((genFuncDecl d c).1)
      (genFuncDecl_memo_lookup d c)
  · intro s c' hlen
    have : s.lhs.length ≠ 1 := by omega
    simp [writeAssignStmt, this, errorf]
  · intro s hs a h
    have he : errored s = true := (errored_iff s).mpr hs
    simp [mainOutcome, he] at h

def twoLhsAssign : AssignStmt :=
  { pos := 30, tokPos := 31,
    lhs := [.ident 32 ⟨none, false⟩ ⟨"a", false, 4, none, .nil⟩,
            .ident 33 ⟨none, false⟩ ⟨"b", false, 5, none, .nil⟩],
    tok := .assign,
    rhs := [.basicLit 34 ⟨none, false⟩ .int "1"] }

theorem claim_C9_witness :
    ((genFuncDecl twoResultsDecl {}).2.errors
        = ({} : Compiler).errors
          ++ [⟨twoResultsDecl.resultsPos, "multiple return values not supported"⟩])
  ∧ (genFuncDecl twoResultsDecl ((genFuncDecl twoResultsDecl {}).2)
        = ((genFuncDecl twoResultsDecl {}).1, (genFuncDecl twoResultsDecl {}).2))
  ∧ (writeAssignStmt twoLhsAssign {}
        = { ({} : Compiler) with
            errors := ({} : Compiler).errors
              ++ [⟨twoLhsAssign.pos, "multi-value assignment unsupported"⟩] }) :=
  ⟨(claim_C9 twoResultsDecl {} rfl rfl rfl rfl).1,
   (claim_C9 twoResultsDecl {} rfl rfl rfl rfl).2.1,
   (claim_C9 twoResultsDecl {} rfl rfl rfl rfl).2.2.1 twoLhsAssign {} rfl⟩

/-
The reachable-type-spec collector of `compile` (gx.go lines 727-763) and the
emission order it induces.

A top-level type spec is modeled by the list of top-level type specs its own
definition's syntax references (`refs`), in the order `ast.Inspect`
encounters their identifiers; a reference to anything that is not a
top-level type spec is simply not in the list (the code skips those).  A
spec is identified by its index in `env`; `typeSpecTopLevel` membership is
`i < env.length`.  Each function declaration contributes the list of
top-level type specs referenced from its syntax, in traversal order; the
collector walks those worklists with `typeSpecCollected` (`collected`,
marked before recursing) and appends each spec to `typeSpecs` (`out`) in
post-order.  Both output sections (forward declarations, lines 765-772, and
definitions, lines 774-782) iterate `typeSpecs` in this one order.
-/

structure TSpec where
  name : String
  refs : List Nat

structure Coll where
  collected : List Nat
  out : List Nat

def refsOf (env : List TSpec) (i : Nat) : List Nat := (env.getD i ⟨"", []⟩).refs

/- The number of valid spec indices not yet collected: the termination
   measure of the DFS. -/
def uncol (env : List TSpec) (col : List Nat) : Nat :=
  ((List.range env.length).filter (fun j => !(decide (j ∈ col)))).length

theorem filter_notMem_length_le (col col' : List Nat)
    (hsub : ∀ x, x ∈ col → x ∈ col') :
    ∀ l : List Nat,
      (l.filter (fun j => !(decide (j ∈ col')))).length
        ≤ (l.filter (fun j => !(decide (j ∈ col)))).length := by
  intro l
  induction l with
  | nil => simp
  | cons x rest ih =>
      simp only [List.filter_cons]
      by_cases hx : x ∈ col'
      · have h1 : (!(decide (x ∈ col'))) = false := by simp [hx]
        rw [h1]
        by_cases hx2 : x ∈ col
        · have h2 : (!(decide (x ∈ col))) = false := by simp [hx2]
          rw [h2]
          simpa using ih
        · have h2 : (!(decide (x ∈ col))) = true := by simp [hx2]
          rw [h2]
          simp only [Bool.false_eq_true, if_false, if_true, List.length_cons]
          omega
      · have hx2 : x ∉ col := fun h => hx (hsub x h)
        have h1 : (!(decide (x ∈ col'))) = true := by simp [hx]
        have h2 : (!(decide (x ∈ col))) = true := by simp [hx2]
        rw [h1, h2]
        simp only [if_true, List.length_cons]
        omega

theorem filter_notMem_length_lt (col : List Nat) (i : Nat) (hi : i ∉ col) :
    ∀ l : List Nat, i ∈ l →
      (l.filter (fun j => !(decide (j ∈ i :: col)))).length
        < (l.filter (fun j => !(decide (j ∈ col)))).length := by
  intro l
  induction l with
  | nil => simp
  | cons x rest ih =>
      intro hmem
      simp only [List.filter_cons]
      by_cases hxi : x = i
      · subst hxi
        have h1 : (!(decide (x ∈ x :: col))) = false := by simp
        have h2 : (!(decide (x ∈ col))) = true := by simp [hi]
        rw [h1, h2]
        simp only [Bool.false_eq_true, if_false, if_true, List.length_cons]
        have := filter_notMem_length_le col (x :: col)
          (fun y hy => List.mem_cons_of_mem x hy) rest
        omega
      · have hrest : i ∈ rest := by
          rcases List.mem_cons.mp hmem with h | h
          · exact absurd h.symm hxi
          · exact h
        have hcont : (decide (x ∈ i :: col)) = (decide (x ∈ col)) := by
          simp only [List.mem_cons, decide_eq_decide]
          constructor
          · intro h
            rcases h with h | h
            · exact absurd h hxi
            · exact h
          · exact Or.inr
        rw [hcont]
        have := ih hrest
        cases hc : (decide (x ∈ col)) <;>
          simp only [hc, Bool.not_false, Bool.not_true, Bool.false_eq_true,
            if_true, if_false, List.length_cons] <;> omega

theorem uncol_le (env : List TSpec) (col col' : List Nat)
    (hsub : ∀ x, x ∈ col → x ∈ col') : uncol env col' ≤ uncol env col :=
  filter_notMem_length_le col col' hsub (List.range env.length)

theorem uncol_lt (env : List TSpec) (col : List Nat) (i : Nat)
    (hi : i ∉ col) (hlen : i < env.length) :
    uncol env (i :: col) < uncol env col :=
  filter_notMem_length_lt col i hi (List.range env.length)
    (List.mem_range.mpr hlen)

/- `collectTypeSpecs` (the closure at gx.go lines 743-755): visit a worklist
   of referenced specs; an uncollected top-level spec is marked, its own
   references are visited first, and it is appended after them. -/
def visitList (env : List TSpec) :
    (work : List Nat) → (cl : Coll) →
    { r : Coll // ∀ x, x ∈ cl.collected → x ∈ r.collected }
  | [], cl => ⟨cl, fun _ h => h⟩
  | i :: rest, cl =>
      if h : i < env.length ∧ i ∉ cl.collected then
        let cl1 : Coll := ⟨i :: cl.collected, cl.out⟩
        let r2 := visitList env (refsOf env i) cl1
        let cl3 : Coll := ⟨r2.1.collected, r2.1.out ++ [i]⟩
        let r4 := visitList env rest cl3
        ⟨r4.1, fun x hx => r4.2 x (r2.2 x (List.mem_cons_of_mem i hx))⟩
      else
        let r := visitList env rest cl
        ⟨r.1, r.2⟩
termination_by work cl => (uncol env cl.collected, work.length)
decreasing_by
  · apply Prod.Lex.left
    exact uncol_lt env cl.collected i h.2 h.1
  · apply Prod.Lex.left
    have h1 : uncol env r2.1.collected ≤ uncol env (i :: cl.collected) :=
      uncol_le env _ _ r2.2
    have h2 : uncol env (i :: cl.collected) < uncol env cl.collected :=
      uncol_lt env cl.collected i h.2 h.1
    exact lt_of_le_of_lt h1 h2
  · apply Prod.Lex.right
    simp

/- The loop over function declarations (gx.go lines 756-762), seeding the
   walk from every identifier found in each function's syntax. -/
def collectTypeSpecs (env : List TSpec) (funcs : List (List Nat)) : Coll :=
  funcs.foldl (fun cl f => (visitList env f cl).1) ⟨[], []⟩

/- The `typeSpecs` emission order shared by the forward-declaration section
   and the definition section. -/
def typeSpecsOrder (env : List TSpec) (funcs : List (List Nat)) : List Nat :=
  (collectTypeSpecs env funcs).out

/- b strictly precedes a in l. -/
def before (l : List Nat) (b a : Nat) : Prop :=
  b ∈ l ∧ a ∈ l ∧ List.indexOf b l < List.indexOf a l

instance (l : List Nat) (b a : Nat) : Decidable (before l b a) := by
  unfold before
  infer_instance

/- One structural reference step: a valid top-level spec `a` references `b`
   from its own definition's syntax. -/
def stepRef (env : List TSpec) (a b : Nat) : Prop :=
  a < env.length ∧ b ∈ refsOf env a

/- Transitive (reflexive) structural reference. -/
def reaches (env : List TSpec) : Nat → Nat → Prop :=
  Relation.ReflTransGen (stepRef env)

theorem before_append_left {l t : List Nat} {b a : Nat} (h : before l b a) :
    before (l ++ t) b a := by
  obtain ⟨hb, ha, hlt⟩ := h
  refine ⟨List.mem_append_left t hb, List.mem_append_left t ha, ?_⟩
  rw [List.indexOf_append_of_mem hb, List.indexOf_append_of_mem ha]
  exact hlt

theorem before_append_new {l : List Nat} {b i : Nat}
    (hb : b ∈ l) (hi : i ∉ l) : before (l ++ [i]) b i := by
  refine ⟨List.mem_append_left _ hb, List.mem_append_right _ (by simp), ?_⟩
  rw [List.indexOf_append_of_mem hb, List.indexOf_append_of_not_mem hi]
  have h1 : List.indexOf b l < l.length := List.indexOf_lt_length.mpr hb
  simp only [List.indexOf_cons_self]
  omega

/- Preconditions of a DFS worklist call: the out list is collected; every
   grey spec (marked but not yet emitted, i.e. an ancestor on the DFS
   stack) reaches every valid worklist entry; emitted specs already satisfy
   the ordering property. -/
structure VisitPre (env : List TSpec) (work : List Nat) (cl : Coll) : Prop where
  inv0 : ∀ x, x ∈ cl.out → x ∈ cl.collected
  anc0 : ∀ g, g ∈ cl.collected → g ∉ cl.out →
           ∀ j, j ∈ work → j < env.length → reaches env g j
  ord0 : ∀ a, a ∈ cl.out → ∀ b, b ∈ refsOf env a → b < env.length →
           before cl.out b a ∨ reaches env b a

/- Postconditions: the out list stays collected and grows by appending; the
   grey set is unchanged; every valid worklist entry ends up collected;
   every newly emitted spec is reachable from the worklist; and every
   emitted spec's references are either emitted before it or reach back to
   it. -/
structure VisitOk (env : List TSpec) (work : List Nat) (cl r : Coll) : Prop where
  inv1 : ∀ x, x ∈ r.out → x ∈ r.collected
  pfx1 : cl.out <+: r.out
  grey1 : ∀ x, (x ∈ r.collected ∧ x ∉ r.out) ↔ (x ∈ cl.collected ∧ x ∉ cl.out)
  cover1 : ∀ j, j ∈ work → j < env.length → j ∈ r.collected
  reach1 : ∀ a, a ∈ r.out → a ∉ cl.out → ∃ j, j ∈ work ∧ reaches env j a
  ord1 : ∀ a, a ∈ r.out → ∀ b, b ∈ refsOf env a → b < env.length →
           before r.out b a ∨ reaches env b a

theorem visitList_spec (env : List TSpec) :
    ∀ (work : List Nat) (cl : Coll),
      VisitPre env work cl → VisitOk env work cl (visitList env work cl).1
  | [], cl => fun pre => by
      simp only [visitList]
      exact ⟨pre.inv0, List.prefix_refl _, fun x => Iff.rfl, by simp,
             fun a ha hna => absurd ha hna, pre.ord0⟩
  | i :: rest, cl => fun pre => by
      rw [visitList]
      by_cases hcond : i < env.length ∧ i ∉ cl.collected
      · rw [dif_pos hcond]
        have inotout : i ∉ cl.out := fun hmem => hcond.2 (pre.inv0 i hmem)
        have pre1 : VisitPre env (refsOf env i) ⟨i :: cl.collected, cl.out⟩ := by
          refine ⟨?_, ?_, ?_⟩
          · intro x hx
            exact List.mem_cons_of_mem i (pre.inv0 x hx)
          · intro g hg hgo j hj hjl
            rcases List.mem_cons.mp hg with h | h
            · subst h
              exact Relation.ReflTransGen.single ⟨hcond.1, hj⟩
            · exact Relation.ReflTransGen.tail
                (pre.anc0 g h hgo i (List.mem_cons_self i rest) hcond.1)
                ⟨hcond.1, hj⟩
          · exact pre.ord0
        have IH1 := visitList_spec env (refsOf env i) ⟨i :: cl.collected, cl.out⟩ pre1
        set r2 := visitList env (refsOf env i) ⟨i :: cl.collected, cl.out⟩ with hr2
        set cl3 : Coll := ⟨r2.1.collected, r2.1.out ++ [i]⟩ with hcl3
        have igrey2 : i ∈ r2.1.collected ∧ i ∉ r2.1.out :=
          (IH1.grey1 i).mpr ⟨List.mem_cons_self i _, inotout⟩
        have grey3 : ∀ x, (x ∈ cl3.collected ∧ x ∉ cl3.out)
            ↔ (x ∈ cl.collected ∧ x ∉ cl.out) := by
          intro x
          constructor
          · rintro ⟨hc, hno⟩
            have hxne : x ≠ i := by
              intro he
              subst he
              exact hno (List.mem_append_right _ (by simp))
            have hnr2 : x ∉ r2.1.out := fun hx => hno (List.mem_append_left _ hx)
            have hg := (IH1.grey1 x).mp ⟨hc, hnr2⟩
            rcases List.mem_cons.mp hg.1 with h | h
            · exact absurd h hxne
            · exact ⟨h, hg.2⟩
          · rintro ⟨hc, hno⟩
            have hxne : x ≠ i := fun he => hcond.2 (he ▸ hc)
            have hg := (IH1.grey1 x).mpr ⟨List.mem_cons_of_mem i hc, hno⟩
            refine ⟨hg.1, ?_⟩
            intro hx
            rcases List.mem_append.mp hx with h | h
            · exact hg.2 h
            · simp at h
              exact hxne h
        have pre3 : VisitPre env rest cl3 := by
          refine ⟨?_, ?_, ?_⟩
          · intro x hx
            rcases List.mem_append.mp hx with h | h
            · exact IH1.inv1 x h
            · simp at h
              subst h
              exact igrey2.1
          · intro g hg hgo j hj hjl
            have hgrey := (grey3 g).mp ⟨hg, hgo⟩
            exact pre.anc0 g hgrey.1 hgrey.2 j (List.mem_cons_of_mem i hj) hjl
          · intro a ha b hb hbl
            rcases List.mem_append.mp ha with h | h
            · rcases IH1.ord1 a h b hb hbl with h2 | h2
              · exact Or.inl (before_append_left h2)
              · exact Or.inr h2
            · simp at h
              subst h
              have hbc : b ∈ r2.1.collected := IH1.cover1 b hb hbl
              by_cases hbo : b ∈ r2.1.out
              · exact Or.inl (before_append_new hbo igrey2.2)
              · have hg := (IH1.grey1 b).mp ⟨hbc, hbo⟩
                rcases List.mem_cons.mp hg.1 with h3 | h3
                · subst h3
                  exact Or.inr Relation.ReflTransGen.refl
                · exact Or.inr
                    (pre.anc0 b h3 hg.2 a (List.mem_cons_self a rest) hcond.1)
        have IH3 := visitList_spec env rest cl3 pre3
        refine ⟨IH3.inv1, ?_, ?_, ?_, ?_, IH3.ord1⟩
        · have p1 : cl.out <+: r2.1.out := IH1.pfx1
          have p2 : r2.1.out <+: cl3.out := ⟨[i], rfl⟩
          exact (p1.trans p2).trans IH3.pfx1
        · intro x
          exact (IH3.grey1 x).trans (grey3 x)
        · intro j hj hjl
          rcases List.mem_cons.mp hj with h | h
          · subst h
            exact (visitList env rest cl3).2 j igrey2.1
          · exact IH3.cover1 j h hjl
        · intro a ha hna
          by_cases h3 : a ∈ cl3.out
          · rcases List.mem_append.mp h3 with h | h
            · obtain ⟨j, hj, hr⟩ := IH1.reach1 a h hna
              exact ⟨i, List.mem_cons_self i rest,
                Relation.ReflTransGen.head ⟨hcond.1, hj⟩ hr⟩
            · simp at h
              subst h
              exact ⟨a, List.mem_cons_self a rest, Relation.ReflTransGen.refl⟩
          · obtain ⟨j, hj, hr⟩ := IH3.reach1 a ha h3
            exact ⟨j, List.mem_cons_of_mem i hj, hr⟩
      · rw [dif_neg hcond]
        have pre' : VisitPre env rest cl :=
          ⟨pre.inv0,
           fun g hg hgo j hj hjl => pre.anc0 g hg hgo j (List.mem_cons_of_mem i hj) hjl,
           pre.ord0⟩
        have IH := visitList_spec env rest cl pre'
        refine ⟨IH.inv1, IH.pfx1, IH.grey1, ?_, ?_, IH.ord1⟩
        · intro j hj hjl
          rcases List.mem_cons.mp hj with h | h
          · subst h
            have hjc : j ∈ cl.collected := by
              by_contra hnc
              exact hcond ⟨hjl, hnc⟩
            exact (visitList env rest cl).2 j hjc
          · exact IH.cover1 j h hjl
        · intro a ha hna
          obtain ⟨j, hj, hr⟩ := IH.reach1 a ha hna
          exact ⟨j, List.mem_cons_of_mem i hj, hr⟩
termination_by work cl => (uncol env cl.collected, work.length)
decreasing_by
  · apply Prod.Lex.left
    exact uncol_lt env cl.collected i hcond.2 hcond.1
  · apply Prod.Lex.left
    have h1 := uncol_le env _ _ (visitList env (refsOf env i) ⟨i :: cl.collected, cl.out⟩).2
    have h2 : uncol env (i :: cl.collected) < uncol env cl.collected :=
      uncol_lt env cl.collected i hcond.2 hcond.1
    exact lt_of_le_of_lt h1 h2
  · apply Prod.Lex.right
    simp

/- Run-level invariant: between function declarations nothing is grey
   (everything marked has been appended). -/
structure GOk (env : List TSpec) (cl : Coll) : Prop where
  ginv : ∀ x, x ∈ cl.out → x ∈ cl.collected
  gful : ∀ x, x ∈ cl.collected → x ∈ cl.out
  gord : ∀ a, a ∈ cl.out → ∀ b, b ∈ refsOf env a → b < env.length →
           before cl.out b a ∨ reaches env b a

theorem foldl_spec (env : List TSpec) :
    ∀ (fs : List (List Nat)) (cl : Coll), GOk env cl →
      GOk env (fs.foldl (fun cl f => (visitList env f cl).1) cl)
    ∧ ∀ a, a ∈ (fs.foldl (fun cl f => (visitList env f cl).1) cl).out →
        a ∈ cl.out ∨ ∃ f, f ∈ fs ∧ ∃ j, j ∈ f ∧ reaches env j a
  | [], cl => fun g => ⟨g, fun a ha => .inl ha⟩
  | f :: fs, cl => fun g => by
      have pre : VisitPre env f cl :=
        ⟨g.ginv, fun gg hgc hgo => absurd (g.gful gg hgc) hgo, g.gord⟩
      have IH1 := visitList_spec env f cl pre
      have g' : GOk env (visitList env f cl).1 := by
        refine ⟨IH1.inv1, ?_, IH1.ord1⟩
        intro x hx
        by_contra hno
        have hg := (IH1.grey1 x).mp ⟨hx, hno⟩
        exact absurd (g.gful x hg.1) hg.2
      have IH2 := foldl_spec env fs (visitList env f cl).1 g'
      simp only [List.foldl_cons]
      refine ⟨IH2.1, ?_⟩
      intro a ha
      rcases IH2.2 a ha with h | h
      · by_cases hcl : a ∈ cl.out
        · exact .inl hcl
        · obtain ⟨j, hj, hr⟩ := IH1.reach1 a h hcl
          exact .inr ⟨f, List.mem_cons_self f fs, j, hj, hr⟩
      · obtain ⟨f', hf', j, hj, hr⟩ := h
        exact .inr ⟨f', List.mem_cons_of_mem f hf', j, hj, hr⟩

/-- Claim C4 (amended): in the emitted order of type specs — the one order
both the forward-declaration section and the definition section iterate —
if spec `a`'s definition structurally references spec `b` and `b` does not
itself transitively reference `a` back (no reference cycle between them),
then `b` precedes `a`; and a spec appears in the order only if some
function body's syntax transitively references it (types never referenced
from any function body are omitted). -/
theorem claim_C4 (env : List TSpec) (funcs : List (List Nat)) :
    (∀ a b, a ∈ typeSpecsOrder env funcs → b ∈ refsOf env a → b < env.length →
       ¬ reaches env b a → before (typeSpecsOrder env funcs) b a)
  ∧ (∀ x, (¬ ∃ f, f ∈ funcs ∧ ∃ j, j ∈ f ∧ reaches env j x) →
       x ∉ typeSpecsOrder env funcs) := by
  have base : GOk env ⟨[], []⟩ :=
    ⟨fun x hx => by simp at hx, fun x hx => by simp at hx, fun a ha => by simp at ha⟩
  have H := foldl_spec env funcs ⟨[], []⟩ base
  constructor
  · intro a b ha hb hbl hnr
    rcases H.1.gord a ha b hb hbl with h | h
    · exact h
    · exact absurd h hnr
  · intro x hnex hmem
    rcases H.2 x hmem with h | h
    · simp at h
    · exact hnex h

/- Two mutually referencing specs (struct A { b *B }; struct B { a *A }),
   with a function body referencing A. -/
def envAB : List TSpec := [⟨"A", [1]⟩, ⟨"B", [0]⟩]

theorem envAB_order : typeSpecsOrder envAB [[0]] = [1, 0] := by
  simp +decide [typeSpecsOrder, collectTypeSpecs, visitList, refsOf, envAB, List.getD]

theorem claim_C4_counterexample :
    0 ∈ refsOf envAB 1
  ∧ 0 ∈ typeSpecsOrder envAB [[0]]
  ∧ 1 ∈ typeSpecsOrder envAB [[0]]
  ∧ ¬ before (typeSpecsOrder envAB [[0]]) 0 1 := by
  rw [envAB_order]
  refine ⟨?_, ?_, ?_, ?_⟩
  · simp [refsOf, envAB, List.getD]
  · decide
  · decide
  · decide

/- An acyclic pair: A references B, B references nothing. -/
def envAC : List TSpec := [⟨"A", [1]⟩, ⟨"B", []⟩]

theorem envAC_order : typeSpecsOrder envAC [[0]] = [1, 0] := by
  simp +decide [typeSpecsOrder, collectTypeSpecs, visitList, refsOf, envAC, List.getD]

theorem claim_C4_witness :
    before (typeSpecsOrder envAC [[0]]) 1 0
  ∧ 5 ∉ typeSpecsOrder envAC [[0]] :=
  ⟨(claim_C4 envAC [[0]]).1 0 1
    (by rw [envAC_order]; decide)
    (by simp [refsOf, envAC, List.getD])
    (by decide)
    (by
      intro h
      rcases Relation.ReflTransGen.cases_head h with he | ⟨c, hstep, _⟩
      · exact absurd he (by decide)
      · have := hstep.2
        simp [refsOf, envAC, List.getD] at this),
   (claim_C4 envAC [[0]]).2 5
    (by
      rintro ⟨f, hf, j, hj, hr⟩
      simp at hf
      subst hf
      simp at hj
      subst hj
      rcases Relation.ReflTransGen.cases_head hr with he | ⟨c, hstep, hr2⟩
      · exact absurd he (by decide)
      · have hc := hstep.2
        simp [refsOf, envAC, List.getD] at hc
        subst hc
        rcases Relation.ReflTransGen.cases_head hr2 with he2 | ⟨c2, hstep2, _⟩
        · exact absurd he2 (by decide)
        · have := hstep2.2
          simp [refsOf, envAC, List.getD] at this)⟩
